import Mathlib

/-!
The rotation state machine of go-daily-log (`log.go`).

A shallow embedding of the package `log` (file `log.go`): the package variables, the
function `initFile` that rotates the daily file, the nine logging wrappers, `SetDir`,
`SetPrefix` and the package initialiser `init`.

The Go standard library the package calls (`time`, `path`, `os`, `io`, `log`, `sync`) is
modelled by small executable definitions over an explicit system state `Sys`. Whether a
system call fails is decided by an environment `Env` supplied with every operation, so a
statement quantified over `Env` covers every success/failure outcome. Every effect is
appended to `Sys.trace`, which lets statements speak about the order of effects.
-/

namespace DailyLog

/-! ## Values -/

/-- Identity of an `*os.File` returned by `os.OpenFile`. -/
abbrev Handle := Nat

/-- An `error` value, identified by its message. -/
abbrev Err := String

/-- The wall-clock reading returned by `time.Now()`, in local civil time. -/
structure Instant where
  year : Nat
  month : Nat
  day : Nat
  hour : Nat
  minute : Nat
  second : Nat
deriving DecidableEq, Repr

/-- A destination of the standard logger: the console stream captured by the package
variable `writer` (`log.Writer()` at load time, that is `os.Stderr`), or an opened file. -/
inductive Writer where
  | stderr
  | file (h : Handle)
deriving DecidableEq, Repr

/-- The value carried by a Go `panic`: an `error` (from `panic(err)`) or the formatted
text (from `log.Panic`). -/
inductive Payload where
  | error (e : Err)
  | text (s : String)
deriving DecidableEq, Repr

/-- The observable effects, in the order the program performs them. -/
inductive Effect where
  | lock
  | unlock
  | mkdirAll (dir : String) (perm : Nat) (res : Option Err)
  | close (h : Handle) (res : Option Err)
  | openFile (path : String) (flag : Nat) (perm : Nat) (res : Option Handle)
  | setOutput (ws : List Writer)
  | setPfx (p : String)
  | write (w : Writer) (data : String) (res : Option Err)
  | exit (code : Nat)
  | panic (v : Payload)
deriving DecidableEq, Repr

/-- How a Go function call ends: it returns, it panics, or the process exits. -/
inductive Outcome where
  | returned
  | panicked (v : Payload)
  | exited (code : Nat)
deriving DecidableEq, Repr

/-- What the outside world answers during one operation: the two clock readings (the one
of `initFile` and the one of the standard logger when it renders the record header) and
the outcome of each system call (`none` is success). -/
structure Env where
  now : Instant
  stamp : Instant
  mkdirErr : Option Err
  closeErr : Option Err
  openErr : Option Err
  stderrErr : Option Err
  fileErr : Option Err
deriving DecidableEq, Repr

/-- The whole system: the package variables `file`, `dir`, `name`; the output and the
prefix of the standard logger; the mutex `lock`; the file system and descriptor table of
the operating system; the console contents; the effect trace. -/
structure Sys where
  file : Option Handle
  dir : String
  name : String
  out : List Writer
  pfx : String
  lock : Bool
  fs : List (String × String)
  fds : List (Handle × String)
  nextHandle : Handle
  console : String
  trace : List Effect
deriving DecidableEq, Repr

/-! ## Package constants (`var (...)` block of `log.go`) -/

def O_WRONLY : Nat := 1
def O_CREATE : Nat := 64
def O_APPEND : Nat := 1024

/-- Package variable `flag = os.O_WRONLY | os.O_APPEND | os.O_CREATE`. -/
def flag : Nat := O_WRONLY ||| O_APPEND ||| O_CREATE

/-- Package variable `layout`. -/
def layout : String := "2006-01-02"

/-- Package variable `perm = os.ModePerm` (octal 777). -/
def perm : Nat := 0o777

/-- Package variable `suffix`. -/
def suffix : String := ".log"

/-- Package variable `writer = log.Writer()`. -/
def writer : Writer := Writer.stderr

/-! ## `time`: formatting an instant -/

/-- Decimal digit character of `n % 10`. -/
def digit (n : Nat) : Char := Char.ofNat (48 + n % 10)

def pad2 (n : Nat) : List Char := [digit (n / 10), digit n]

def pad4 (n : Nat) : List Char := [digit (n / 1000), digit (n / 100), digit (n / 10), digit n]

/-- Digits of a year: at least four, zero-padded; more when the year needs them. -/
def yearDigits (n : Nat) : List Char := if n < 10000 then pad4 n else Nat.toDigits 10 n

/-- The text of `t.Format(layout)` for the package layout `2006-01-02`: four-digit year,
two-digit month, two-digit day. -/
def Format (t : Instant) : String :=
  String.mk (yearDigits t.year ++ '-' :: pad2 t.month ++ '-' :: pad2 t.day)

/-- The header the standard logger puts before a message under its default flags
(`LstdFlags`): date, time, one blank. -/
def header (t : Instant) : String :=
  String.mk (yearDigits t.year ++ '/' :: pad2 t.month ++ '/' :: pad2 t.day ++ ' ' ::
    pad2 t.hour ++ ':' :: pad2 t.minute ++ ':' :: pad2 t.second ++ [' '])

/-! ## `path`: `Clean` and `Join` -/

/-- Split at every slash; the pieces may be empty. -/
def splitSlash : List Char → List (List Char)
  | [] => [[]]
  | c :: cs =>
    match splitSlash cs with
    | [] => [[]]
    | w :: ws => if c = '/' then [] :: w :: ws else (c :: w) :: ws

/-- One element of the lexical cleaning of `path.Clean`; `acc` holds the kept elements,
last one first. Empty and `.` elements are dropped; `..` removes the previous real
element, is dropped at the root, and is kept when nothing can be removed. -/
def cleanStep (rooted : Bool) (acc : List (List Char)) (c : List Char) : List (List Char) :=
  if c = [] ∨ c = ['.'] then acc
  else if c = ['.', '.'] then
    match acc with
    | top :: rest => if top = ['.', '.'] then c :: acc else rest
    | [] => if rooted then [] else [c]
  else c :: acc

def joinSlash : List (List Char) → List Char
  | [] => []
  | [x] => x
  | x :: y :: rest => x ++ '/' :: joinSlash (y :: rest)

/-- The function `path.Clean` on the characters of a path. -/
def cleanChars (p : List Char) : List Char :=
  let rooted : Bool := p.head? = some '/'
  let body := joinSlash ((splitSlash p).foldl (cleanStep rooted) []).reverse
  let res := if rooted then '/' :: body else body
  if res = [] then ['.'] else res

/-- The function `path.Join` for two elements: empty elements are ignored, the others
are joined by a slash and cleaned; two empty elements give the empty string. -/
def Join (a b : String) : String :=
  if a.data = [] then
    if b.data = [] then "" else String.mk (cleanChars b.data)
  else if b.data = [] then String.mk (cleanChars a.data)
  else String.mk (cleanChars (a.data ++ '/' :: b.data))

/-! ## `sync`, `os`, `io`, `log`: the primitives the package calls -/

/-- Append one effect to the trace. -/
def emit (e : Effect) (s : Sys) : Sys := { s with trace := s.trace ++ [e] }

/-- The call `lock.Lock()`. -/
def mutexLock (s : Sys) : Sys := emit Effect.lock { s with lock := true }

/-- The call `lock.Unlock()`. -/
def mutexUnlock (s : Sys) : Sys := emit Effect.unlock { s with lock := false }

/-- The call `os.MkdirAll(d, p)`; directories are not part of the modelled file system. -/
def osMkdirAll (env : Env) (d : String) (p : Nat) (s : Sys) : Option Err × Sys :=
  (env.mkdirErr, emit (Effect.mkdirAll d p env.mkdirErr) s)

/-- The call `f.Close()`: on success the descriptor leaves the table; a close that
reports an error leaves the table as it was. -/
def osClose (env : Env) (h : Handle) (s : Sys) : Option Err × Sys :=
  match env.closeErr with
  | some e => (some e, emit (Effect.close h (some e)) s)
  | none => (none, emit (Effect.close h none) { s with fds := s.fds.filter (fun d => d.1 != h) })

/-- Create the file when it does not exist (`O_CREATE`). -/
def createFile (p : String) (fs : List (String × String)) : List (String × String) :=
  if fs.any (fun f => f.1 == p) then fs else fs ++ [(p, "")]

/-- Append to the file at `p` (`O_APPEND`). -/
def appendFile (p : String) (data : String) : List (String × String) → List (String × String)
  | [] => []
  | f :: rest => if f.1 = p then (f.1, f.2 ++ data) :: rest else f :: appendFile p data rest

/-- The call `os.OpenFile(p, fl, pm)` for the package flags (write-only, append, create):
on success the file exists afterwards and a fresh handle is returned; on failure no
handle is returned. -/
def osOpenFile (env : Env) (p : String) (fl pm : Nat) (s : Sys) : Except Err Handle × Sys :=
  match env.openErr with
  | some e => (Except.error e, emit (Effect.openFile p fl pm none) s)
  | none =>
    (Except.ok s.nextHandle,
      emit (Effect.openFile p fl pm (some s.nextHandle))
        { s with fs := createFile p s.fs, fds := s.fds ++ [(s.nextHandle, p)],
                 nextHandle := s.nextHandle + 1 })

/-- Path of an open descriptor. -/
def fdPath (h : Handle) : List (Handle × String) → Option String
  | [] => none
  | d :: rest => if d.1 = h then some d.2 else fdPath h rest

/-- One `Write` on one destination. A write on a handle that is not open fails. -/
def writeTo (env : Env) (w : Writer) (data : String) (s : Sys) : Option Err × Sys :=
  match w with
  | Writer.stderr =>
    match env.stderrErr with
    | some e => (some e, emit (Effect.write w data (some e)) s)
    | none => (none, emit (Effect.write w data none) { s with console := s.console ++ data })
  | Writer.file h =>
    match fdPath h s.fds with
    | none => (some "file already closed", emit (Effect.write w data (some "file already closed")) s)
    | some p =>
      match env.fileErr with
      | some e => (some e, emit (Effect.write w data (some e)) s)
      | none => (none, emit (Effect.write w data none) { s with fs := appendFile p data s.fs })

/-- The `Write` of `io.MultiWriter(ws...)`: each destination in turn, stopping at the
first one that fails. -/
def writeAll (env : Env) (data : String) : List Writer → Sys → Sys
  | [], s => s
  | w :: ws, s =>
    match writeTo env w data s with
    | (some _, s1) => s1
    | (none, s1) => writeAll env data ws s1

/-- The call `log.SetOutput(io.MultiWriter(ws...))`. -/
def logSetOutput (ws : List Writer) (s : Sys) : Sys :=
  emit (Effect.setOutput ws) { s with out := ws }

/-- The call `log.SetPrefix(p)`. -/
def logSetPrefix (p : String) (s : Sys) : Sys :=
  emit (Effect.setPfx p) { s with pfx := p }

/-- The record the standard logger writes for a message: prefix, header, the message,
and a newline when the message does not end with one. -/
def record (pfx : String) (t : Instant) (text : String) : String :=
  pfx ++ header t ++ text ++ (if text.data.getLast? = some '\n' then "" else "\n")

/-- The standard logger's `Output`: one write of the record to the installed output; the
error of the write is dropped, as `log.Print` and its siblings do. -/
def logOutput (env : Env) (text : String) (s : Sys) : Sys :=
  writeAll env (record s.pfx env.stamp text) s.out s

/-- The builtin `panic(v)`. -/
def goPanic (v : Payload) (s : Sys) : Outcome × Sys :=
  (Outcome.panicked v, emit (Effect.panic v) s)

/-- The call `os.Exit(code)`. -/
def osExit (code : Nat) (s : Sys) : Outcome × Sys :=
  (Outcome.exited code, emit (Effect.exit code) s)

/-- `log.Print`, `log.Printf`, `log.Println`; `text` is what `fmt` renders from the
arguments. -/
def logPrint (env : Env) (text : String) (s : Sys) : Outcome × Sys :=
  (Outcome.returned, logOutput env text s)

/-- `log.Fatal`, `log.Fatalf`, `log.Fatalln`: `Output` then `os.Exit(1)`. -/
def logFatal (env : Env) (text : String) (s : Sys) : Outcome × Sys :=
  osExit 1 (logOutput env text s)

/-- `log.Panic`, `log.Panicf`, `log.Panicln`: `Output` then `panic(text)`. -/
def logPanic (env : Env) (text : String) (s : Sys) : Outcome × Sys :=
  goPanic (Payload.text text) (logOutput env text s)

/-- The pattern `lock.Lock(); defer lock.Unlock(); body`: the deferred unlock runs when
the body returns and when it panics, and does not run when the process exits inside. -/
def withLock (body : Sys → Outcome × Sys) (s : Sys) : Outcome × Sys :=
  match body (mutexLock s) with
  | (Outcome.exited c, s1) => (Outcome.exited c, s1)
  | (o, s1) => (o, mutexUnlock s1)

/-! ## The package functions -/

/-- `initDir` (log.go 59-61). -/
def initDir (env : Env) (s : Sys) : Option Err × Sys :=
  osMkdirAll env s.dir perm s

/-- `initFile` (log.go 63-89). -/
def initFile (env : Env) (s : Sys) : Option Err × Sys :=
  let newName := Format env.now ++ suffix
  if newName = s.name then (none, s)
  else
    let closed : Option Err × Sys :=
      match s.file with
      | some h => osClose env h s
      | none => (none, s)
    match closed with
    | (some e, s1) => (some e, s1)
    | (none, s1) =>
      let s2 := { s1 with name := newName }
      match osOpenFile env (Join s2.dir s2.name) flag perm s2 with
      | (Except.error e, s3) => (some e, { s3 with file := none })
      | (Except.ok h, s3) => (none, logSetOutput [writer, Writer.file h] { s3 with file := some h })

/-- The body shared by the nine wrappers: `initFile`, `panic(err)` on failure, otherwise
the call of the standard logger. -/
def guarded (env : Env) (call : Sys → Outcome × Sys) (s : Sys) : Outcome × Sys :=
  match initFile env s with
  | (some e, s1) => goPanic (Payload.error e) s1
  | (none, s1) => call s1

/-- `Fatal` (log.go 92-102). -/
def Fatal (env : Env) (text : String) : Sys → Outcome × Sys :=
  withLock (guarded env (logFatal env text))

/-- `Fatalf` (log.go 105-115). -/
def Fatalf (env : Env) (text : String) : Sys → Outcome × Sys :=
  withLock (guarded env (logFatal env text))

/-- `Fatalln` (log.go 118-128). -/
def Fatalln (env : Env) (text : String) : Sys → Outcome × Sys :=
  withLock (guarded env (logFatal env text))

/-- `Panic` (log.go 131-141). -/
def Panic (env : Env) (text : String) : Sys → Outcome × Sys :=
  withLock (guarded env (logPanic env text))

/-- `Panicf` (log.go 144-154). -/
def Panicf (env : Env) (text : String) : Sys → Outcome × Sys :=
  withLock (guarded env (logPanic env text))

/-- `Panicln` (log.go 157-167). -/
def Panicln (env : Env) (text : String) : Sys → Outcome × Sys :=
  withLock (guarded env (logPanic env text))

/-- `Print` (log.go 170-180). -/
def Print (env : Env) (text : String) : Sys → Outcome × Sys :=
  withLock (guarded env (logPrint env text))

/-- `Printf` (log.go 183-193). -/
def Printf (env : Env) (text : String) : Sys → Outcome × Sys :=
  withLock (guarded env (logPrint env text))

/-- `Println` (log.go 196-206). -/
def Println (env : Env) (text : String) : Sys → Outcome × Sys :=
  withLock (guarded env (logPrint env text))

/-- `SetDir` (log.go 209-224). -/
def SetDir (env : Env) (d : String) : Sys → Outcome × Sys :=
  withLock fun s =>
    let s1 := { s with dir := d, name := "" }
    match initDir env s1 with
    | (some e, s2) => goPanic (Payload.error e) s2
    | (none, s2) =>
      match initFile env s2 with
      | (some e, s3) => goPanic (Payload.error e) s3
      | (none, s3) => (Outcome.returned, s3)

/-- `SetPrefix` (log.go 227-233). -/
def SetPrefix (p : String) : Sys → Outcome × Sys :=
  withLock fun s => (Outcome.returned, logSetPrefix p s)

/-- The package initialiser `init` (log.go 49-57). -/
def init (env : Env) (s : Sys) : Outcome × Sys :=
  match initDir env s with
  | (some e, s1) => goPanic (Payload.error e) s1
  | (none, s1) =>
    match initFile env s1 with
    | (some e, s2) => goPanic (Payload.error e) s2
    | (none, s2) => (Outcome.returned, s2)

/-- The state when the package is loaded, before `init` runs: the declared values of the
package variables, the standard logger writing to the console only, nothing open. -/
def boot : Sys :=
  { file := none, dir := "log", name := "", out := [Writer.stderr], pfx := "", lock := false,
    fs := [], fds := [], nextHandle := 0, console := "", trace := [] }

/-! ## Enumerations of the public operations -/

/-- The nine logging wrappers. -/
inductive LogOp where
  | print | printf | println
  | fatal | fatalf | fatalln
  | panic | panicf | panicln
deriving DecidableEq, Repr

/-- The wrapper a name stands for. -/
def LogOp.call : LogOp → Env → String → Sys → Outcome × Sys
  | LogOp.print => Print
  | LogOp.printf => Printf
  | LogOp.println => Println
  | LogOp.fatal => Fatal
  | LogOp.fatalf => Fatalf
  | LogOp.fatalln => Fatalln
  | LogOp.panic => Panic
  | LogOp.panicf => Panicf
  | LogOp.panicln => Panicln

def LogOp.isPrint : LogOp → Bool
  | LogOp.print | LogOp.printf | LogOp.println => true
  | _ => false

def LogOp.isFatal : LogOp → Bool
  | LogOp.fatal | LogOp.fatalf | LogOp.fatalln => true
  | _ => false

def LogOp.isPanic : LogOp → Bool
  | LogOp.panic | LogOp.panicf | LogOp.panicln => true
  | _ => false

/-- One call made by the program (or by the runtime, for `init`), with what the world
answers during it. -/
inductive Call where
  | init (env : Env)
  | log (op : LogOp) (env : Env) (text : String)
  | setDir (env : Env) (d : String)
  | setPrefix (p : String)
deriving DecidableEq, Repr

def Call.exec : Call → Sys → Outcome × Sys
  | Call.init env => DailyLog.init env
  | Call.log op env text => op.call env text
  | Call.setDir env d => SetDir env d
  | Call.setPrefix p => SetPrefix p

/-- Calls made one after another. A panic leaving a wrapper may be recovered by the
caller, so execution goes on after it; it stops when the process exits and when `init`
panics (a panic during package initialisation cannot be recovered). -/
def run : List Call → Sys → Sys
  | [], s => s
  | c :: rest, s =>
    match c.exec s with
    | (Outcome.exited _, s1) => s1
    | (Outcome.panicked _, s1) =>
      match c with
      | Call.init _ => s1
      | _ => run rest s1
    | (Outcome.returned, s1) => run rest s1

/-- Consecutive `initFile` calls, errors ignored. -/
def initFileAll : List Env → Sys → Sys
  | [], s => s
  | e :: rest, s => initFileAll rest (initFile e s).2

def Effect.isOpen : Effect → Bool
  | Effect.openFile _ _ _ _ => true
  | _ => false

def Effect.isClose : Effect → Bool
  | Effect.close _ _ => true
  | _ => false

def Effect.isWrite : Effect → Bool
  | Effect.write _ _ _ => true
  | _ => false

/-- Replaying one effect on the list of handles that were opened and are not yet closed:
a successful open adds its handle, a successful close removes its handle. -/
def liveStep (l : List Handle) : Effect → List Handle
  | Effect.openFile _ _ _ (some h) => l ++ [h]
  | Effect.close h none => l.filter (fun x => x != h)
  | _ => l

/-- The handles opened and not yet closed after a trace. -/
def live (t : List Effect) : List Handle := t.foldl liveStep []

/-- Replaying a trace from the live handles `l`: at no point, before or after any effect,
are more than one handle live. -/
def atMostOneLive (l : List Handle) : List Effect → Bool
  | [] => decide (l.length ≤ 1)
  | e :: rest => decide (l.length ≤ 1) && atMostOneLive (liveStep l e) rest

/-- Effects that neither open nor close a file. -/
def Effect.neutral : Effect → Bool
  | Effect.openFile _ _ _ _ => false
  | Effect.close _ _ => false
  | _ => true

/-- The shape of the states the package can be in: the standard logger writes to the
console first; with no current handle no descriptor is open; with a current handle `h`
that handle was returned by an earlier open, it is the only open descriptor, and the
installed output is the console and `h`. -/
def Sys.ok (s : Sys) : Bool :=
  match s.file with
  | none => s.fds.isEmpty && s.out.head? == some Writer.stderr
  | some h =>
    decide (h < s.nextHandle) && s.out == [Writer.stderr, Writer.file h] &&
      s.fds.map Prod.fst == [h]

/-- The invariant of the reachable states. -/
def Inv (s : Sys) : Prop := s.ok = true

instance instDecidableInv (s : Sys) : Decidable (Inv s) :=
  inferInstanceAs (Decidable (s.ok = true))

/-- An environment in which every system call succeeds. -/
def okEnv (now stamp : Instant) : Env :=
  { now := now, stamp := stamp, mkdirErr := none, closeErr := none, openErr := none,
    stderrErr := none, fileErr := none }

def jan1 : Instant := { year := 2024, month := 1, day := 1, hour := 9, minute := 5, second := 7 }

def jan2 : Instant := { year := 2024, month := 1, day := 2, hour := 0, minute := 0, second := 1 }

/-- The state after a successful start on 2024-01-01. -/
def started : Sys := (init (okEnv jan1 jan1) boot).2

/-- Two instants on one calendar day. -/
def Instant.sameDay (a b : Instant) : Prop :=
  a.year = b.year ∧ a.month = b.month ∧ a.day = b.day

/-- A civil date as the clock returns it: a four-digit year, a month 1-12, a day 1-31. -/
def Instant.civil (t : Instant) : Prop :=
  t.year < 10000 ∧ 1 ≤ t.month ∧ t.month ≤ 12 ∧ 1 ≤ t.day ∧ t.day ≤ 31

instance instDecidableSameDay (a b : Instant) : Decidable (a.sameDay b) :=
  inferInstanceAs (Decidable (a.year = b.year ∧ a.month = b.month ∧ a.day = b.day))

instance instDecidableCivil (t : Instant) : Decidable t.civil :=
  inferInstanceAs (Decidable (t.year < 10000 ∧ 1 ≤ t.month ∧ t.month ≤ 12 ∧ 1 ≤ t.day ∧ t.day ≤ 31))

/-- A path element that `path.Clean` keeps as it is: not empty, not `.` or `..`, without a
slash. -/
def simpleName (n : List Char) : Prop :=
  n ≠ [] ∧ n ≠ ['.'] ∧ n ≠ ['.', '.'] ∧ '/' ∉ n

/-- A state with a current file: the reachable shape, with the current handle open on
`path.Join(dir, name)` and that file present. -/
def Sys.ready (s : Sys) : Bool :=
  s.ok &&
    match s.file with
    | none => false
    | some h => s.fds == [(h, Join s.dir s.name)] && s.fs.any (fun f => f.1 == Join s.dir s.name)

def Ready (s : Sys) : Prop := s.ready = true

instance instDecidableReady (s : Sys) : Decidable (Ready s) :=
  inferInstanceAs (Decidable (s.ready = true))

/-- Every system call of the operation succeeds. -/
def Env.allOk (env : Env) : Prop :=
  env.mkdirErr = none ∧ env.closeErr = none ∧ env.openErr = none ∧ env.stderrErr = none ∧
    env.fileErr = none

instance instDecidableAllOk (env : Env) : Decidable env.allOk :=
  inferInstanceAs (Decidable (env.mkdirErr = none ∧ env.closeErr = none ∧ env.openErr = none ∧
    env.stderrErr = none ∧ env.fileErr = none))

/-- The records of a sequence of logging calls, in call order. -/
def records (pfx : String) : List (LogOp × Env × String) → String
  | [] => ""
  | c :: rest => record pfx c.2.1.stamp c.2.2 ++ records pfx rest

/-- Logging calls as calls of the program. -/
def toCalls (cs : List (LogOp × Env × String)) : List Call :=
  cs.map (fun c => Call.log c.1 c.2.1 c.2.2)

/-- The invariant carried along a run: the state has the reachable shape, the descriptor
table holds exactly the handles live after the trace, and the trace never had more than
one live handle. -/
def Reach (s : Sys) : Prop :=
  Inv s ∧ live s.trace = s.fds.map Prod.fst ∧ atMostOneLive [] s.trace = true

/-! ## Basic facts -/

theorem newName_ne_empty (t : Instant) : Format t ++ suffix ≠ "" := by
  intro h
  have h1 := congrArg String.length h
  simp [String.length_append, suffix] at h1
  exact absurd h1.2 (by decide)

/-! ## Frame facts: what the primitives leave alone -/

theorem inv_none {s : Sys} (hinv : Inv s) (hf : s.file = none) :
    s.fds = [] ∧ s.out.head? = some Writer.stderr := by
  simpa [Inv, Sys.ok, hf] using hinv

theorem inv_some {s : Sys} {h : Handle} (hinv : Inv s) (hf : s.file = some h) :
    h < s.nextHandle ∧ s.out = [Writer.stderr, Writer.file h] ∧ s.fds.map Prod.fst = [h] := by
  simpa [Inv, Sys.ok, hf, and_assoc] using hinv

theorem inv_congr {s t : Sys} (hinv : Inv s) (h1 : t.file = s.file) (h2 : t.out = s.out)
    (h3 : t.fds = s.fds) (h4 : t.nextHandle = s.nextHandle) : Inv t := by
  unfold Inv Sys.ok at *
  rw [h1, h2, h3, h4]
  exact hinv

theorem inv_boot : Inv boot := by decide

theorem writeTo_frame (env : Env) (w : Writer) (data : String) (s : Sys) :
    (writeTo env w data s).2.file = s.file ∧ (writeTo env w data s).2.dir = s.dir ∧
    (writeTo env w data s).2.name = s.name ∧ (writeTo env w data s).2.out = s.out ∧
    (writeTo env w data s).2.pfx = s.pfx ∧ (writeTo env w data s).2.lock = s.lock ∧
    (writeTo env w data s).2.fds = s.fds ∧
    (writeTo env w data s).2.nextHandle = s.nextHandle := by
  cases w with
  | stderr => cases h : env.stderrErr <;> simp [writeTo, h, emit]
  | file f =>
    cases h1 : fdPath f s.fds with
    | none => simp [writeTo, h1, emit]
    | some p => cases h2 : env.fileErr <;> simp [writeTo, h1, h2, emit]

theorem writeAll_frame (env : Env) (data : String) (ws : List Writer) (s : Sys) :
    (writeAll env data ws s).file = s.file ∧ (writeAll env data ws s).dir = s.dir ∧
    (writeAll env data ws s).name = s.name ∧ (writeAll env data ws s).out = s.out ∧
    (writeAll env data ws s).pfx = s.pfx ∧ (writeAll env data ws s).lock = s.lock ∧
    (writeAll env data ws s).fds = s.fds ∧
    (writeAll env data ws s).nextHandle = s.nextHandle := by
  induction ws generalizing s with
  | nil => simp [writeAll]
  | cons w rest ih =>
    have hw := writeTo_frame env w data s
    rcases hr : writeTo env w data s with ⟨r, s1⟩
    rw [hr] at hw
    cases r with
    | some e => simpa [writeAll, hr] using hw
    | none =>
      simp only [writeAll, hr]
      have h2 := ih s1
      simp only [] at hw
      refine ⟨h2.1.trans hw.1, h2.2.1.trans hw.2.1, h2.2.2.1.trans hw.2.2.1,
        h2.2.2.2.1.trans hw.2.2.2.1, h2.2.2.2.2.1.trans hw.2.2.2.2.1,
        h2.2.2.2.2.2.1.trans hw.2.2.2.2.2.1, h2.2.2.2.2.2.2.1.trans hw.2.2.2.2.2.2.1,
        h2.2.2.2.2.2.2.2.trans hw.2.2.2.2.2.2.2⟩

/-- The writes of one record: all go to members of the installed output, carry the same
data, and are appended to the trace. -/
theorem writeAll_trace (env : Env) (data : String) (ws : List Writer) (s : Sys) :
    ∃ W, (writeAll env data ws s).trace = s.trace ++ W ∧
      ∀ x ∈ W, ∃ w r, x = Effect.write w data r ∧ w ∈ ws := by
  induction ws generalizing s with
  | nil => exact ⟨[], by simp [writeAll]⟩
  | cons w rest ih =>
    have hstep : ∃ r, (writeTo env w data s).2.trace = s.trace ++ [Effect.write w data r] ∧
        (writeTo env w data s).1 = r := by
      cases w with
      | stderr => cases h : env.stderrErr <;> simp [writeTo, h, emit]
      | file f =>
        cases h1 : fdPath f s.fds with
        | none => simp [writeTo, h1, emit]
        | some p => cases h2 : env.fileErr <;> simp [writeTo, h1, h2, emit]
    obtain ⟨r, hr, hr1⟩ := hstep
    rcases hres : writeTo env w data s with ⟨r0, s1⟩
    rw [hres] at hr hr1
    simp only [] at hr hr1
    cases r0 with
    | some e =>
      refine ⟨[Effect.write w data r], by simp [writeAll, hres, hr], ?_⟩
      intro x hx
      simp at hx
      exact ⟨w, r, hx, by simp⟩
    | none =>
      obtain ⟨W, hW, hmem⟩ := ih s1
      refine ⟨Effect.write w data r :: W, by simp [writeAll, hres, hW, hr], ?_⟩
      intro x hx
      rcases List.mem_cons.1 hx with hx | hx
      · exact ⟨w, r, hx, by simp⟩
      · obtain ⟨w2, r2, h2, h3⟩ := hmem x hx
        exact ⟨w2, r2, h2, by simp [h3]⟩

/-- What `initFile` leaves alone, and the kind of effects it performs. -/
theorem initFile_frame (env : Env) (s : Sys) :
    (initFile env s).2.dir = s.dir ∧ (initFile env s).2.pfx = s.pfx ∧
    (initFile env s).2.lock = s.lock ∧ (initFile env s).2.console = s.console ∧
    ∃ I, (initFile env s).2.trace = s.trace ++ I ∧
      ∀ x ∈ I, (∃ h r, x = Effect.close h r) ∨ (∃ p f m r, x = Effect.openFile p f m r) ∨
        (∃ ws, x = Effect.setOutput ws) := by
  unfold initFile
  by_cases hname : Format env.now ++ suffix = s.name
  · simp [hname]
  · cases hf : s.file <;> cases hc : env.closeErr <;> cases ho : env.openErr <;>
      simp [hname, hf, hc, ho, osClose, osOpenFile, emit, logSetOutput]

theorem initFile_inv (env : Env) (s : Sys) (hinv : Inv s) : Inv (initFile env s).2 := by
  unfold initFile
  by_cases hname : Format env.now ++ suffix = s.name
  · simpa [hname] using hinv
  · cases hf : s.file with
    | none =>
      obtain ⟨h1, h2⟩ := inv_none hinv hf
      cases ho : env.openErr <;>
        simp [hname, hf, ho, osOpenFile, emit, logSetOutput, Inv, Sys.ok, h1, h2, writer]
    | some h =>
      obtain ⟨h1, h2, h3⟩ := inv_some hinv hf
      have h4 : s.fds.filter (fun d => d.1 != h) = [] := by
        rw [List.filter_eq_nil_iff]
        intro d hd
        have : d.1 ∈ s.fds.map Prod.fst := List.mem_map_of_mem _ hd
        rw [h3] at this
        simp at this
        simp [this]
      cases hc : env.closeErr with
      | some e =>
        simp only [hname, hf, hc, osClose, if_false]
        exact inv_congr hinv rfl rfl rfl rfl
      | none =>
        cases ho : env.openErr <;>
          simp [hname, hf, hc, ho, osClose, osOpenFile, emit, logSetOutput, Inv, Sys.ok, h2,
            h4, writer]

theorem fdPath_append_self (h : Handle) (p : String) (l : List (Handle × String)) :
    ∃ q, fdPath h (l ++ [(h, p)]) = some q := by
  induction l with
  | nil => exact ⟨p, by simp [fdPath]⟩
  | cons d rest ih =>
    by_cases hd : d.1 = h
    · exact ⟨d.2, by simp [fdPath, hd]⟩
    · obtain ⟨q, hq⟩ := ih
      exact ⟨q, by simp [fdPath, hd, hq]⟩

theorem fdPath_filter_self (h : Handle) (l : List (Handle × String)) :
    fdPath h (l.filter (fun d => d.1 != h)) = none := by
  induction l with
  | nil => simp [fdPath]
  | cons d rest ih =>
    by_cases hd : d.1 = h
    · simp [List.filter_cons, hd, ih]
    · simp [List.filter_cons, hd, fdPath, ih]

/-- C5. When a handle is open, the derived name differs from the stored one and closing
the handle fails, `initFile` returns the close error and the only thing it has done is
the failed close: no open, and `name`, `file`, `dir`, the installed output and everything
else are as before. -/
theorem initFile_close_failure (env : Env) (s : Sys) (h : Handle) (e : Err)
    (hfile : s.file = some h) (hname : Format env.now ++ suffix ≠ s.name)
    (hclose : env.closeErr = some e) :
    initFile env s = (some e, { s with trace := s.trace ++ [Effect.close h (some e)] }) := by
  simp [initFile, hname, hfile, osClose, hclose, emit]

theorem initFile_close_failure_witness :
    initFile { okEnv jan2 jan2 with closeErr := some "input/output error" } started
      = (some "input/output error",
          { started with trace := started.trace ++ [Effect.close 0 (some "input/output error")] }) :=
  initFile_close_failure { okEnv jan2 jan2 with closeErr := some "input/output error" } started 0
    "input/output error" (by decide) (by decide) (by decide)

/-- C2. Rotation: with a handle `h` open, a derived name different from the stored one,
and close and open both succeeding, `initFile` succeeds; what it does is, in this order,
close `h`, open `path.Join(dir, date + suffix)` write-only, append, create with
permission 0777, install the output; afterwards `name` is the new name, `file` is the new
handle, the output is exactly the console and the new handle, the new handle is not `h`,
`h` is no longer open, and a later record is written to the console and the new handle
and to nothing else. -/
theorem initFile_rotation (env : Env) (s : Sys) (h : Handle)
    (hfile : s.file = some h) (hfresh : h < s.nextHandle)
    (hname : Format env.now ++ suffix ≠ s.name)
    (hclose : env.closeErr = none) (hopen : env.openErr = none) :
    (initFile env s).1 = none ∧
    (initFile env s).2.trace = s.trace ++
      [Effect.close h none,
       Effect.openFile (Join s.dir (Format env.now ++ suffix))
         (O_WRONLY ||| O_APPEND ||| O_CREATE) 0o777 (some s.nextHandle),
       Effect.setOutput [Writer.stderr, Writer.file s.nextHandle]] ∧
    (initFile env s).2.name = Format env.now ++ suffix ∧
    (initFile env s).2.file = some s.nextHandle ∧
    (initFile env s).2.dir = s.dir ∧
    (initFile env s).2.out = [Writer.stderr, Writer.file s.nextHandle] ∧
    s.nextHandle ≠ h ∧
    fdPath h (initFile env s).2.fds = none ∧
    (∀ (env2 : Env) (text : String), env2.stderrErr = none → env2.fileErr = none →
      (logOutput env2 text (initFile env s).2).trace = (initFile env s).2.trace ++
        [Effect.write Writer.stderr (record s.pfx env2.stamp text) none,
         Effect.write (Writer.file s.nextHandle) (record s.pfx env2.stamp text) none]) := by
  have hne : s.nextHandle ≠ h := Nat.ne_of_gt hfresh
  obtain ⟨q, hq⟩ := fdPath_append_self s.nextHandle (Join s.dir (Format env.now ++ suffix))
    (s.fds.filter (fun d => d.1 != h))
  refine ⟨?_, ?_, ?_, ?_, ?_, ?_, hne, ?_, ?_⟩
  · simp [initFile, hname, hfile, osClose, hclose, osOpenFile, hopen, emit, logSetOutput]
  · simp [initFile, hname, hfile, osClose, hclose, osOpenFile, hopen, emit, logSetOutput,
      flag, perm, writer]
  · simp [initFile, hname, hfile, osClose, hclose, osOpenFile, hopen, emit, logSetOutput]
  · simp [initFile, hname, hfile, osClose, hclose, osOpenFile, hopen, emit, logSetOutput]
  · simp [initFile, hname, hfile, osClose, hclose, osOpenFile, hopen, emit, logSetOutput]
  · simp [initFile, hname, hfile, osClose, hclose, osOpenFile, hopen, emit, logSetOutput,
      writer]
  · simp only [initFile, hname, hfile, osClose, hclose, osOpenFile, hopen, emit, logSetOutput,
      if_false]
    have h1 : fdPath h (s.fds.filter (fun d => d.1 != h)) = none := fdPath_filter_self h s.fds
    have : ∀ l : List (Handle × String), fdPath h l = none →
        fdPath h (l ++ [(s.nextHandle, Join s.dir (Format env.now ++ suffix))]) = none := by
      intro l
      induction l with
      | nil => intro _; simp [fdPath, hne]
      | cons d rest ih =>
        intro hl
        by_cases hd : d.1 = h
        · simp [fdPath, hd] at hl
        · simp [fdPath, hd] at hl ⊢
          exact ih hl
    exact this _ h1
  · intro env2 text h2 h3
    simp [initFile, hname, hfile, osClose, hclose, osOpenFile, hopen, emit, logSetOutput,
      logOutput, writeAll, writeTo, h2, h3, writer, hq]

theorem initFile_rotation_witness :
    (initFile (okEnv jan2 jan2) started).2.trace = started.trace ++
      [Effect.close 0 none, Effect.openFile "log/2024-01-02.log" 1089 511 (some 1),
       Effect.setOutput [Writer.stderr, Writer.file 1]] :=
  (initFile_rotation (okEnv jan2 jan2) started 0 (by decide) (by decide) (by decide)
    (by decide) (by decide)).2.1

/-- C1. After an open failure `initFile` returns the error and `file` is nil, but the
stored name is already the new one: the next call on the same day, with an open that
would succeed, returns success without attempting any open and leaves `file` nil. -/
theorem initFile_open_failure_not_retried :
    (initFile { okEnv jan2 jan2 with openErr := some "permission denied" } started).1
      = some "permission denied" ∧
    (initFile { okEnv jan2 jan2 with openErr := some "permission denied" } started).2.file
      = none ∧
    (initFile { okEnv jan2 jan2 with openErr := some "permission denied" } started).2.name
      = "2024-01-02.log" ∧
    initFile (okEnv jan2 jan2)
        (initFile { okEnv jan2 jan2 with openErr := some "permission denied" } started).2
      = (none, (initFile { okEnv jan2 jan2 with openErr := some "permission denied" } started).2) := by
  decide

theorem initFile_same_name (env : Env) (s : Sys) (hname : s.name = Format env.now ++ suffix) :
    initFile env s = (none, s) := by
  simp [initFile, hname]

theorem initFileAll_same_name (envs : List Env) (s : Sys)
    (hname : ∀ e ∈ envs, s.name = Format e.now ++ suffix) : initFileAll envs s = s := by
  induction envs with
  | nil => rfl
  | cons e rest ih =>
    have h1 : initFile e s = (none, s) := initFile_same_name e s (hname e (by simp))
    simp only [initFileAll, h1]
    exact ih (fun e2 h2 => hname e2 (by simp [h2]))

/-- C3. With the stored name equal to the derived one and a handle open, `initFile`
returns success and the state is exactly the one before: no close, no open, `name`,
`file`, `dir` and the installed output unchanged. Consequently `n ≥ 1` consecutive calls
on one day from a state with empty name and no handle, every open succeeding, perform
exactly one open and no close. -/
theorem initFile_idempotent (env : Env) (s : Sys) (h : Handle)
    (hname : s.name = Format env.now ++ suffix) (hfile : s.file = some h)
    (envs : List Env) (s0 : Sys) (day : String)
    (hne : envs ≠ []) (hday : ∀ e ∈ envs, Format e.now = day)
    (hopen : ∀ e ∈ envs, e.openErr = none)
    (hname0 : s0.name = "") (hfile0 : s0.file = none) :
    initFile env s = (none, s) ∧
    (initFile env s).2.file = some h ∧
    (initFileAll envs s0).trace = s0.trace ++
      [Effect.openFile (Join s0.dir (day ++ suffix)) flag perm (some s0.nextHandle),
       Effect.setOutput [Writer.stderr, Writer.file s0.nextHandle]] ∧
    ((initFileAll envs s0).trace.drop s0.trace.length).countP Effect.isOpen = 1 ∧
    ((initFileAll envs s0).trace.drop s0.trace.length).countP Effect.isClose = 0 ∧
    (initFileAll envs s0).file = some s0.nextHandle ∧
    (initFileAll envs s0).dir = s0.dir := by
  have hfirst : initFile env s = (none, s) := initFile_same_name env s hname
  cases envs with
  | nil => exact absurd rfl hne
  | cons e rest =>
    have hd : Format e.now = day := hday e (by simp)
    have ho : e.openErr = none := hopen e (by simp)
    have hnn : ¬ (day ++ suffix = s0.name) := by
      rw [hname0, ← hd]; exact newName_ne_empty e.now
    have hstep : (initFile e s0).2 =
        { s0 with
          name := day ++ suffix, file := some s0.nextHandle,
          out := [Writer.stderr, Writer.file s0.nextHandle],
          fs := createFile (Join s0.dir (day ++ suffix)) s0.fs,
          fds := s0.fds ++ [(s0.nextHandle, Join s0.dir (day ++ suffix))],
          nextHandle := s0.nextHandle + 1,
          trace := s0.trace ++
            [Effect.openFile (Join s0.dir (day ++ suffix)) flag perm (some s0.nextHandle),
             Effect.setOutput [Writer.stderr, Writer.file s0.nextHandle]] } := by
      simp [initFile, hd, hnn, hfile0, osOpenFile, ho, emit, logSetOutput, writer]
    have hrest : initFileAll rest (initFile e s0).2 = (initFile e s0).2 := by
      apply initFileAll_same_name
      intro e2 h2
      rw [hstep, hday e2 (by simp [h2])]
    have hall : initFileAll (e :: rest) s0 = (initFile e s0).2 := by
      simp only [initFileAll, hrest]
    rw [hall, hstep]
    refine ⟨hfirst, by rw [hfirst]; exact hfile, rfl, ?_, ?_, rfl, rfl⟩
    · simp [Effect.isOpen]
    · simp [Effect.isClose]

theorem initFile_idempotent_witness :
    initFile (okEnv jan1 jan2) started = (none, started) ∧
    (initFileAll [okEnv jan1 jan1, okEnv jan1 jan2, okEnv jan1 jan1] boot).trace = boot.trace ++
      [Effect.openFile (Join boot.dir ("2024-01-01" ++ suffix)) flag perm (some boot.nextHandle),
       Effect.setOutput [Writer.stderr, Writer.file boot.nextHandle]] :=
  ⟨(initFile_idempotent (okEnv jan1 jan2) started 0 (by decide) (by decide)
      [okEnv jan1 jan1, okEnv jan1 jan2, okEnv jan1 jan1] boot "2024-01-01"
      (by decide) (by decide) (by decide) (by decide) (by decide)).1,
   (initFile_idempotent (okEnv jan1 jan2) started 0 (by decide) (by decide)
      [okEnv jan1 jan1, okEnv jan1 jan2, okEnv jan1 jan1] boot "2024-01-01"
      (by decide) (by decide) (by decide) (by decide) (by decide)).2.2.1⟩

theorem inv_mutexLock {s : Sys} (hinv : Inv s) : Inv (mutexLock s) :=
  inv_congr hinv rfl rfl rfl rfl

theorem initFile_err_fs (env : Env) (s : Sys) (e : Err) (herr : (initFile env s).1 = some e) :
    (initFile env s).2.fs = s.fs := by
  unfold initFile at herr ⊢
  by_cases hname : Format env.now ++ suffix = s.name
  · simp [hname] at herr
  · cases hf : s.file <;> cases hc : env.closeErr <;> cases ho : env.openErr <;>
      simp [hname, hf, hc, ho, osClose, osOpenFile, emit, logSetOutput] at herr ⊢

theorem fds_single {l : List (Handle × String)} {h : Handle} (hl : l.map Prod.fst = [h]) :
    ∃ p, l = [(h, p)] := by
  match l, hl with
  | [(a, p)], hl =>
    simp at hl
    exact ⟨p, by rw [hl]⟩

/-- C8. In each of the nine wrappers, when the `initFile` call returns an error the
wrapper panics with that error as its payload, and between taking the lock and the panic
it has written nothing: no write effect, console and files as before. -/
theorem log_aborts_without_write (op : LogOp) (env : Env) (text : String) (s : Sys) (e : Err)
    (herr : (initFile env (mutexLock s)).1 = some e) :
    (op.call env text s).1 = Outcome.panicked (Payload.error e) ∧
    (∃ I, (op.call env text s).2.trace
        = s.trace ++ Effect.lock :: I ++ [Effect.panic (Payload.error e), Effect.unlock] ∧
      ∀ x ∈ I, x.isWrite = false) ∧
    (op.call env text s).2.console = s.console ∧
    (op.call env text s).2.fs = s.fs := by
  have hfs := initFile_err_fs env (mutexLock s) e herr
  obtain ⟨_, _, _, hcon, I, hI, hkind⟩ := initFile_frame env (mutexLock s)
  rcases hres : initFile env (mutexLock s) with ⟨r, s1⟩
  rw [hres] at herr hfs hcon hI
  simp only [] at herr hfs hcon hI
  subst herr
  have hcall : op.call env text s
      = (Outcome.panicked (Payload.error e), mutexUnlock (emit (Effect.panic (Payload.error e)) s1)) := by
    cases op <;>
      simp [LogOp.call, Print, Printf, Println, Fatal, Fatalf, Fatalln, Panic, Panicf, Panicln,
        withLock, guarded, hres, goPanic]
  rw [hcall]
  refine ⟨rfl, ⟨I, ?_, ?_⟩, ?_, ?_⟩
  · simp [mutexUnlock, emit, hI, mutexLock]
  · intro x hx
    rcases hkind x hx with ⟨h, r, hx⟩ | ⟨p, f, m, r, hx⟩ | ⟨ws, hx⟩ <;> rw [hx] <;> rfl
  · simpa [mutexUnlock, emit, mutexLock] using hcon
  · simpa [mutexUnlock, emit, mutexLock] using hfs

theorem log_aborts_without_write_witness :
    (LogOp.println.call { okEnv jan2 jan2 with openErr := some "permission denied" } "x" started).1
      = Outcome.panicked (Payload.error "permission denied") ∧
    (LogOp.println.call { okEnv jan2 jan2 with openErr := some "permission denied" } "x" started).2.fs
      = started.fs :=
  ⟨(log_aborts_without_write LogOp.println
      { okEnv jan2 jan2 with openErr := some "permission denied" } "x" started "permission denied"
      (by decide)).1,
   (log_aborts_without_write LogOp.println
      { okEnv jan2 jan2 with openErr := some "permission denied" } "x" started "permission denied"
      (by decide)).2.2.2⟩

/-- C9, as the claim states it, fails: with the console write failing, the fan-out stops
there, so `Fatal` from the state after start-up exits after the failed console write alone
and the current file receives nothing; and in the state left by a failed open `initFile`
succeeds with no current handle, and the record goes to the console and to the closed old
handle only. -/
theorem console_failure_skips_file :
    (initFile { okEnv jan1 jan1 with stderrErr := some "broken pipe" } (mutexLock started)).1
      = none ∧
    (Fatal { okEnv jan1 jan1 with stderrErr := some "broken pipe" } "x" started).2.trace.drop
        started.trace.length
      = [Effect.lock,
         Effect.write Writer.stderr "2024/01/01 09:05:07 x\n" (some "broken pipe"),
         Effect.exit 1] ∧
    (Fatal { okEnv jan1 jan1 with stderrErr := some "broken pipe" } "x" started).2.fs
      = started.fs ∧
    (initFile (okEnv jan2 jan2) (mutexLock
        (initFile { okEnv jan2 jan2 with openErr := some "permission denied" } started).2)).1
      = none ∧
    (initFile (okEnv jan2 jan2) (mutexLock
        (initFile { okEnv jan2 jan2 with openErr := some "permission denied" } started).2)).2.file
      = none ∧
    (Fatal (okEnv jan2 jan2) "x"
        (initFile { okEnv jan2 jan2 with openErr := some "permission denied" } started).2).2.fs
      = started.fs := by
  decide

/-- C9, amended. In a reachable state, when the `initFile` call of a fatal- or
panic-family wrapper succeeds and leaves a current handle `h`, the installed output is the
console and `h`, and `h` is the one open descriptor. The record is written to the console
first; when that write fails nothing else is written, when it succeeds the console holds
the record and the record is then written to `h`, reaching the file of `h` when that write
succeeds. Only after these writes comes the terminal action, which always occurs:
`os.Exit(1)` for the fatal family, the panic carrying the formatted text (followed by the
deferred unlock) for the panic family. -/
theorem write_precedes_terminal (op : LogOp) (env : Env) (text : String) (s : Sys)
    (h : Handle) (hinv : Inv s) (hok : (initFile env (mutexLock s)).1 = none)
    (hfile : (initFile env (mutexLock s)).2.file = some h) (hfam : op.isPrint = false) :
    ∃ p W,
      (initFile env (mutexLock s)).2.fds = [(h, p)] ∧
      (initFile env (mutexLock s)).2.out = [Writer.stderr, Writer.file h] ∧
      (op.isFatal = true ∨ op.isPanic = true) ∧
      (op.isFatal = true →
        (op.call env text s).1 = Outcome.exited 1 ∧
        (op.call env text s).2.trace
          = (initFile env (mutexLock s)).2.trace ++ W ++ [Effect.exit 1]) ∧
      (op.isPanic = true →
        (op.call env text s).1 = Outcome.panicked (Payload.text text) ∧
        (op.call env text s).2.trace
          = (initFile env (mutexLock s)).2.trace ++ W ++
              [Effect.panic (Payload.text text), Effect.unlock]) ∧
      (∀ e, env.stderrErr = some e →
        W = [Effect.write Writer.stderr (record s.pfx env.stamp text) (some e)] ∧
        (op.call env text s).2.console = s.console ∧
        (op.call env text s).2.fs = (initFile env (mutexLock s)).2.fs) ∧
      (env.stderrErr = none →
        W = [Effect.write Writer.stderr (record s.pfx env.stamp text) none,
             Effect.write (Writer.file h) (record s.pfx env.stamp text) env.fileErr] ∧
        (op.call env text s).2.console = s.console ++ record s.pfx env.stamp text ∧
        (env.fileErr = none →
          (op.call env text s).2.fs
            = appendFile p (record s.pfx env.stamp text) (initFile env (mutexLock s)).2.fs) ∧
        (∀ e, env.fileErr = some e →
          (op.call env text s).2.fs = (initFile env (mutexLock s)).2.fs)) := by
  have hinv1 : Inv (initFile env (mutexLock s)).2 := initFile_inv env _ (inv_mutexLock hinv)
  obtain ⟨_, hpfx, _, hcon, _⟩ := initFile_frame env (mutexLock s)
  have hpfx : (initFile env (mutexLock s)).2.pfx = s.pfx := hpfx
  have hcon : (initFile env (mutexLock s)).2.console = s.console := hcon
  rcases hres : initFile env (mutexLock s) with ⟨r, s1⟩
  rw [hres] at hok hinv1 hpfx hcon hfile
  simp only [] at hok hinv1 hpfx hcon hfile
  subst hok
  obtain ⟨_, hout, hfds⟩ := inv_some hinv1 hfile
  obtain ⟨p, hp⟩ := fds_single hfds
  have hfamily : op.isFatal = true ∨ op.isPanic = true := by
    cases op <;> simp [LogOp.isPrint, LogOp.isFatal, LogOp.isPanic] at hfam ⊢
  cases hc : env.stderrErr with
  | some e =>
    refine ⟨p, [Effect.write Writer.stderr (record s.pfx env.stamp text) (some e)], hp, hout,
      hfamily, ?_, ?_, ?_, ?_⟩
    · intro hf
      cases op <;> simp [LogOp.isFatal] at hf <;>
        simp [LogOp.call, Fatal, Fatalf, Fatalln, withLock, guarded, hres, logFatal, osExit,
          emit, logOutput, hout, writeAll, writeTo, hc, hpfx]
    · intro hf
      cases op <;> simp [LogOp.isPanic] at hf <;>
        simp [LogOp.call, Panic, Panicf, Panicln, withLock, guarded, hres, logPanic, goPanic,
          mutexUnlock, emit, logOutput, hout, writeAll, writeTo, hc, hpfx]
    · intro e2 he2
      cases he2
      cases op <;> simp [LogOp.isPrint] at hfam <;>
        simp [LogOp.call, Fatal, Fatalf, Fatalln, Panic, Panicf, Panicln, withLock, guarded,
          hres, logFatal, logPanic, osExit, goPanic, mutexUnlock, emit, logOutput, hout,
          writeAll, writeTo, hc, hpfx, hcon]
    · intro hnone
      cases hnone
  | none =>
    refine ⟨p, [Effect.write Writer.stderr (record s.pfx env.stamp text) none,
      Effect.write (Writer.file h) (record s.pfx env.stamp text) env.fileErr], hp, hout,
      hfamily, ?_, ?_, ?_, ?_⟩
    · intro hf
      cases hw : env.fileErr <;> cases op <;> simp [LogOp.isFatal] at hf <;>
        simp [LogOp.call, Fatal, Fatalf, Fatalln, withLock, guarded, hres, logFatal, osExit,
          emit, logOutput, hout, writeAll, writeTo, hc, hw, hpfx, hp, fdPath]
    · intro hf
      cases hw : env.fileErr <;> cases op <;> simp [LogOp.isPanic] at hf <;>
        simp [LogOp.call, Panic, Panicf, Panicln, withLock, guarded, hres, logPanic, goPanic,
          mutexUnlock, emit, logOutput, hout, writeAll, writeTo, hc, hw, hpfx, hp, fdPath]
    · intro e2 he2
      cases he2
    · intro _
      refine ⟨rfl, ?_, ?_, ?_⟩
      · cases hw : env.fileErr <;> cases op <;> simp [LogOp.isPrint] at hfam <;>
          simp [LogOp.call, Fatal, Fatalf, Fatalln, Panic, Panicf, Panicln, withLock, guarded,
            hres, logFatal, logPanic, osExit, goPanic, mutexUnlock, emit, logOutput, hout,
            writeAll, writeTo, hc, hw, hpfx, hcon, hp, fdPath]
      · intro hw
        cases op <;> simp [LogOp.isPrint] at hfam <;>
          simp [LogOp.call, Fatal, Fatalf, Fatalln, Panic, Panicf, Panicln, withLock, guarded,
            hres, logFatal, logPanic, osExit, goPanic, mutexUnlock, emit, logOutput, hout,
            writeAll, writeTo, hc, hw, hpfx, hcon, hp, fdPath]
      · intro e2 hw
        cases op <;> simp [LogOp.isPrint] at hfam <;>
          simp [LogOp.call, Fatal, Fatalf, Fatalln, Panic, Panicf, Panicln, withLock, guarded,
            hres, logFatal, logPanic, osExit, goPanic, mutexUnlock, emit, logOutput, hout,
            writeAll, writeTo, hc, hw, hpfx, hcon, hp, fdPath]

theorem write_precedes_terminal_witness :
    (LogOp.fatalf.call (okEnv jan2 jan2) "x" started).1 = Outcome.exited 1 ∧
    (LogOp.fatalf.call (okEnv jan2 jan2) "x" started).2.console
      = started.console ++ record started.pfx jan2 "x" ∧
    ∃ pre, (LogOp.fatalf.call (okEnv jan2 jan2) "x" started).2.trace = pre ++
      [Effect.write Writer.stderr (record started.pfx jan2 "x") none,
       Effect.write (Writer.file 1) (record started.pfx jan2 "x") none,
       Effect.exit 1] := by
  obtain ⟨p, W, _, _, _, h4, _, _, h7⟩ := write_precedes_terminal LogOp.fatalf
    (okEnv jan2 jan2) "x" started 1 (by decide) (by decide) (by decide) (by decide)
  obtain ⟨hW, hcon, _, _⟩ := h7 rfl
  obtain ⟨h5, h6⟩ := h4 rfl
  refine ⟨h5, hcon, (initFile (okEnv jan2 jan2) (mutexLock started)).2.trace, ?_⟩
  rw [h6, hW]
  simp [okEnv]

/-- C10, as the claim states it, fails: `Fatal` ends in `os.Exit(1)` with the mutex still
held and no unlock anywhere in the trace, and in `Panic` the unlock comes after the panic
has started. -/
theorem lock_held_at_terminal_action :
    (Fatal (okEnv jan1 jan1) "x" started).1 = Outcome.exited 1 ∧
    (Fatal (okEnv jan1 jan1) "x" started).2.lock = true ∧
    Effect.unlock ∉ (Fatal (okEnv jan1 jan1) "x" started).2.trace ∧
    (Panic (okEnv jan1 jan1) "x" started).2.trace.drop started.trace.length
      = [Effect.lock,
         Effect.write Writer.stderr "2024/01/01 09:05:07 x\n" none,
         Effect.write (Writer.file 0) "2024/01/01 09:05:07 x\n" none,
         Effect.panic (Payload.text "x"),
         Effect.unlock] := by
  decide

/-- C10, amended. Every wrapper takes the mutex first. When `initFile` succeeds: the
print family writes, unlocks and returns with the mutex free; the panic family writes,
starts the panic, and the deferred unlock runs during the unwinding, so the mutex is free
when the panic leaves the wrapper; the fatal family writes and exits the process without
ever unlocking. -/
theorem lock_release_by_family (op : LogOp) (env : Env) (text : String) (s : Sys)
    (hok : (initFile env (mutexLock s)).1 = none) :
    ∃ I W,
      (∀ x ∈ I ++ W, x ≠ Effect.unlock) ∧ (∀ x ∈ W, x.isWrite = true) ∧
      (initFile env (mutexLock s)).2.trace = s.trace ++ Effect.lock :: I ∧
      (op.isPrint = true →
        (op.call env text s).1 = Outcome.returned ∧
        (op.call env text s).2.trace = s.trace ++ Effect.lock :: I ++ W ++ [Effect.unlock] ∧
        (op.call env text s).2.lock = false) ∧
      (op.isPanic = true →
        (op.call env text s).1 = Outcome.panicked (Payload.text text) ∧
        (op.call env text s).2.trace
          = s.trace ++ Effect.lock :: I ++ W ++ [Effect.panic (Payload.text text), Effect.unlock] ∧
        (op.call env text s).2.lock = false) ∧
      (op.isFatal = true →
        (op.call env text s).1 = Outcome.exited 1 ∧
        (op.call env text s).2.trace = s.trace ++ Effect.lock :: I ++ W ++ [Effect.exit 1] ∧
        (op.call env text s).2.lock = true) := by
  obtain ⟨_, _, hheld, _, I, hI, hkind⟩ := initFile_frame env (mutexLock s)
  rcases hres : initFile env (mutexLock s) with ⟨r, s1⟩
  rw [hres] at hok hheld hI
  simp only [] at hok hheld hI
  subst hok
  obtain ⟨W, hW, hmem⟩ := writeAll_trace env (record s1.pfx env.stamp text) s1.out s1
  have hfr := writeAll_frame env (record s1.pfx env.stamp text) s1.out s1
  have hheld2 : (writeAll env (record s1.pfx env.stamp text) s1.out s1).lock = true := by
    rw [hfr.2.2.2.2.2.1, hheld]; rfl
  have hI2 : s1.trace = s.trace ++ Effect.lock :: I := by
    rw [hI]; simp [mutexLock, emit]
  refine ⟨I, W, ?_, ?_, hI2, ?_, ?_, ?_⟩
  · intro x hx
    rcases List.mem_append.1 hx with hx | hx
    · rcases hkind x hx with ⟨h, r, hx⟩ | ⟨p, f, m, r, hx⟩ | ⟨ws, hx⟩ <;> rw [hx] <;> simp
    · obtain ⟨w, r, hx, _⟩ := hmem x hx
      rw [hx]; simp
  · intro x hx
    obtain ⟨w, r, hx, _⟩ := hmem x hx
    rw [hx]; rfl
  · intro hp
    cases op <;> simp [LogOp.isPrint] at hp <;>
      simp [LogOp.call, Print, Printf, Println, withLock, guarded, hres, logPrint, logOutput,
        mutexUnlock, emit, hW, hI2]
  · intro hp
    cases op <;> simp [LogOp.isPanic] at hp <;>
      simp [LogOp.call, Panic, Panicf, Panicln, withLock, guarded, hres, logPanic, logOutput,
        goPanic, mutexUnlock, emit, hW, hI2]
  · intro hp
    cases op <;> simp [LogOp.isFatal] at hp <;>
      simp [LogOp.call, Fatal, Fatalf, Fatalln, withLock, guarded, hres, logFatal, logOutput,
        osExit, emit, hW, hI2, hheld2]

theorem lock_release_by_family_witness :
    (LogOp.panicln.call (okEnv jan2 jan2) "x" started).1 = Outcome.panicked (Payload.text "x") ∧
    (LogOp.panicln.call (okEnv jan2 jan2) "x" started).2.lock = false ∧
    (LogOp.fatalln.call (okEnv jan2 jan2) "x" started).2.lock = true := by
  obtain ⟨_, _, _, _, _, _, h1, _⟩ := lock_release_by_family LogOp.panicln (okEnv jan2 jan2) "x"
    started (by decide)
  obtain ⟨_, _, _, _, _, _, _, h2⟩ := lock_release_by_family LogOp.fatalln (okEnv jan2 jan2) "x"
    started (by decide)
  exact ⟨(h1 rfl).1, (h1 rfl).2.2, (h2 rfl).2.2⟩

/-- C4. `SetDir(d)` always leaves `dir = d`; it stores the empty name, which no derived
name (date + suffix) equals, so once the directory is made the `initFile` call starts
with the close of the current handle or, with none, with the open. When mkdir, close and
open succeed, the effects are lock, mkdir, close of the old handle, open of
`path.Join(d, today + suffix)`, install the output, unlock; `file` is the new handle and
the output is the console and the new handle; in a reachable state the new handle is the
only open descriptor and a later record is appended to the file in `d` only. -/
theorem SetDir_takes_effect (env : Env) (d : String) (s : Sys) :
    (SetDir env d s).2.dir = d ∧
    (∀ t : Instant, Format t ++ suffix ≠ "") ∧
    (env.mkdirErr = none →
      ∃ x rest, (SetDir env d s).2.trace
          = s.trace ++ Effect.lock :: Effect.mkdirAll d perm none :: x :: rest ∧
        (∀ h, s.file = some h → x = Effect.close h env.closeErr) ∧
        (s.file = none → ∃ r, x = Effect.openFile (Join d (Format env.now ++ suffix)) flag perm r)) ∧
    (env.mkdirErr = none → env.closeErr = none → env.openErr = none →
      (SetDir env d s).1 = Outcome.returned ∧
      (SetDir env d s).2.trace = s.trace ++ [Effect.lock, Effect.mkdirAll d perm none] ++
        s.file.toList.map (fun h => Effect.close h none) ++
        [Effect.openFile (Join d (Format env.now ++ suffix)) flag perm (some s.nextHandle),
         Effect.setOutput [Writer.stderr, Writer.file s.nextHandle], Effect.unlock] ∧
      (SetDir env d s).2.file = some s.nextHandle ∧
      (SetDir env d s).2.name = Format env.now ++ suffix ∧
      (SetDir env d s).2.out = [Writer.stderr, Writer.file s.nextHandle] ∧
      (Inv s →
        (∀ h, s.file = some h → h ≠ s.nextHandle) ∧
        (SetDir env d s).2.fds = [(s.nextHandle, Join d (Format env.now ++ suffix))] ∧
        ∀ (env2 : Env) (text : String), env2.stderrErr = none → env2.fileErr = none →
          (logOutput env2 text (SetDir env d s).2).trace = (SetDir env d s).2.trace ++
            [Effect.write Writer.stderr (record s.pfx env2.stamp text) none,
             Effect.write (Writer.file s.nextHandle) (record s.pfx env2.stamp text) none] ∧
          (logOutput env2 text (SetDir env d s).2).fs
            = appendFile (Join d (Format env.now ++ suffix)) (record s.pfx env2.stamp text)
                (SetDir env d s).2.fs)) := by
  have hnn : ∀ t : Instant, Format t ++ suffix ≠ "" := newName_ne_empty
  have hn := hnn env.now
  refine ⟨?_, hnn, ?_, ?_⟩
  · cases hm : env.mkdirErr <;> cases hf : s.file <;> cases hc : env.closeErr <;>
      cases ho : env.openErr <;>
      simp [SetDir, withLock, initDir, osMkdirAll, hm, goPanic, mutexUnlock, mutexLock, emit,
        initFile, hn, hf, hc, ho, osClose, osOpenFile, logSetOutput]
  · intro hm
    cases hf : s.file <;> cases hc : env.closeErr <;> cases ho : env.openErr <;>
      simp [SetDir, withLock, initDir, osMkdirAll, hm, goPanic, mutexUnlock, mutexLock, emit,
        initFile, hn, hf, hc, ho, osClose, osOpenFile, logSetOutput]
  · intro hm hc ho
    cases hf : s.file with
    | none =>
      refine ⟨?_, ?_, ?_, ?_, ?_, ?_⟩ <;>
        try simp [SetDir, withLock, initDir, osMkdirAll, hm, goPanic, mutexUnlock, mutexLock,
          emit, initFile, hn, hf, hc, ho, osClose, osOpenFile, logSetOutput, writer]
      intro hinv
      obtain ⟨h1, h2⟩ := inv_none hinv hf
      refine ⟨?_, ?_⟩
      · simp [SetDir, withLock, initDir, osMkdirAll, hm, goPanic, mutexUnlock, mutexLock,
          emit, initFile, hn, hf, hc, ho, osClose, osOpenFile, logSetOutput, writer, h1]
      · intro env2 text e1 e2
        simp [SetDir, withLock, initDir, osMkdirAll, hm, goPanic, mutexUnlock, mutexLock,
          emit, initFile, hn, hf, hc, ho, osClose, osOpenFile, logSetOutput, writer, h1,
          logOutput, writeAll, writeTo, e1, e2, fdPath]
    | some h =>
      refine ⟨?_, ?_, ?_, ?_, ?_, ?_⟩ <;>
        try simp [SetDir, withLock, initDir, osMkdirAll, hm, goPanic, mutexUnlock, mutexLock,
          emit, initFile, hn, hf, hc, ho, osClose, osOpenFile, logSetOutput, writer]
      intro hinv
      obtain ⟨h1, h2, h3⟩ := inv_some hinv hf
      obtain ⟨p, hp⟩ := fds_single h3
      refine ⟨Nat.ne_of_lt h1, ?_, ?_⟩
      · simp [SetDir, withLock, initDir, osMkdirAll, hm, goPanic, mutexUnlock, mutexLock,
          emit, initFile, hn, hf, hc, ho, osClose, osOpenFile, logSetOutput, writer, hp]
      · intro env2 text e1 e2
        simp [SetDir, withLock, initDir, osMkdirAll, hm, goPanic, mutexUnlock, mutexLock,
          emit, initFile, hn, hf, hc, ho, osClose, osOpenFile, logSetOutput, writer, hp,
          logOutput, writeAll, writeTo, e1, e2, fdPath]

theorem SetDir_takes_effect_witness :
    (SetDir (okEnv jan1 jan1) "other" started).2.dir = "other" ∧
    (SetDir (okEnv jan1 jan1) "other" started).2.file = some started.nextHandle ∧
    (SetDir (okEnv jan1 jan1) "other" started).2.fds
      = [(started.nextHandle, Join "other" (Format (okEnv jan1 jan1).now ++ suffix))] :=
  ⟨(SetDir_takes_effect (okEnv jan1 jan1) "other" started).1,
   ((SetDir_takes_effect (okEnv jan1 jan1) "other" started).2.2.2 rfl rfl rfl).2.2.1,
   (((SetDir_takes_effect (okEnv jan1 jan1) "other" started).2.2.2 rfl rfl rfl).2.2.2.2.2
      (by decide)).2.1⟩

/-! ## The single-handle invariant along the trace -/

theorem live_append (u l : List Effect) : live (u ++ l) = l.foldl liveStep (live u) := by
  simp [live, List.foldl_append]

theorem atMostOneLive_append (l0 : List Handle) (u l : List Effect) :
    atMostOneLive l0 (u ++ l) = (atMostOneLive l0 u && atMostOneLive (u.foldl liveStep l0) l) := by
  induction u generalizing l0 with
  | nil => cases l <;> simp [atMostOneLive]
  | cons e rest ih => simp [atMostOneLive, ih, Bool.and_assoc]

theorem liveStep_neutral (l : List Handle) (e : Effect) (he : e.neutral = true) :
    liveStep l e = l := by
  cases e <;> simp [Effect.neutral] at he <;> rfl

theorem foldl_neutral (l0 : List Handle) (W : List Effect) (hW : ∀ x ∈ W, x.neutral = true) :
    W.foldl liveStep l0 = l0 := by
  induction W with
  | nil => rfl
  | cons e rest ih =>
    simp only [List.foldl_cons]
    rw [liveStep_neutral l0 e (hW e (by simp))]
    exact ih (fun x hx => hW x (by simp [hx]))

theorem atMostOneLive_neutral (l0 : List Handle) (W : List Effect)
    (hW : ∀ x ∈ W, x.neutral = true) : atMostOneLive l0 W = decide (l0.length ≤ 1) := by
  induction W with
  | nil => rfl
  | cons e rest ih =>
    simp only [atMostOneLive]
    rw [liveStep_neutral l0 e (hW e (by simp)), ih (fun x hx => hW x (by simp [hx]))]
    simp

theorem inv_fds_length {s : Sys} (hinv : Inv s) : s.fds.length ≤ 1 := by
  cases hf : s.file with
  | none => simp [(inv_none hinv hf).1]
  | some h =>
    obtain ⟨p, hp⟩ := fds_single (inv_some hinv hf).2.2
    simp [hp]

theorem reach_boot : Reach boot := by
  refine ⟨inv_boot, ?_, ?_⟩ <;> decide

theorem reach_neutral {s t : Sys} (hr : Reach s) (h1 : t.file = s.file) (h2 : t.out = s.out)
    (h3 : t.fds = s.fds) (h4 : t.nextHandle = s.nextHandle)
    (h5 : ∃ W, t.trace = s.trace ++ W ∧ ∀ x ∈ W, x.neutral = true) : Reach t := by
  obtain ⟨hinv, hlive, hsafe⟩ := hr
  obtain ⟨W, hW, hn⟩ := h5
  refine ⟨inv_congr hinv h1 h2 h3 h4, ?_, ?_⟩
  · rw [hW, live_append, foldl_neutral _ W hn, hlive, h3]
  · rw [hW, atMostOneLive_append, hsafe, atMostOneLive_neutral _ W hn]
    have : (List.foldl liveStep [] s.trace).length ≤ 1 := by
      have := inv_fds_length hinv
      change (live s.trace).length ≤ 1
      rw [hlive]; simpa using this
    simp [this]

theorem reach_emit {s : Sys} (e : Effect) (he : e.neutral = true) (hr : Reach s) :
    Reach (emit e s) :=
  reach_neutral hr rfl rfl rfl rfl ⟨[e], rfl, by simpa using he⟩

theorem reach_mutexLock {s : Sys} (hr : Reach s) : Reach (mutexLock s) :=
  reach_neutral hr rfl rfl rfl rfl ⟨[Effect.lock], rfl, by simp [Effect.neutral]⟩

theorem reach_mutexUnlock {s : Sys} (hr : Reach s) : Reach (mutexUnlock s) :=
  reach_neutral hr rfl rfl rfl rfl ⟨[Effect.unlock], rfl, by simp [Effect.neutral]⟩

theorem reach_logOutput (env : Env) (text : String) {s : Sys} (hr : Reach s) :
    Reach (logOutput env text s) := by
  obtain ⟨W, hW, hmem⟩ := writeAll_trace env (record s.pfx env.stamp text) s.out s
  have hfr := writeAll_frame env (record s.pfx env.stamp text) s.out s
  refine reach_neutral hr hfr.1 hfr.2.2.2.1 hfr.2.2.2.2.2.2.1 hfr.2.2.2.2.2.2.2 ⟨W, hW, ?_⟩
  intro x hx
  obtain ⟨w, r, hx, _⟩ := hmem x hx
  rw [hx]; rfl

theorem reach_initFile (env : Env) {s : Sys} (hr : Reach s) : Reach (initFile env s).2 := by
  obtain ⟨hinv, hlive, hsafe⟩ := hr
  refine ⟨initFile_inv env s hinv, ?_, ?_⟩
  · unfold initFile
    by_cases hname : Format env.now ++ suffix = s.name
    · simpa [hname] using hlive
    · cases hf : s.file with
      | none =>
        obtain ⟨h1, _⟩ := inv_none hinv hf
        rw [h1] at hlive
        cases ho : env.openErr <;>
          simp [hname, hf, ho, osOpenFile, emit, logSetOutput, live_append, hlive, h1, liveStep]
      | some h =>
        obtain ⟨p, hp⟩ := fds_single (inv_some hinv hf).2.2
        rw [hp] at hlive
        cases hc : env.closeErr <;> cases ho : env.openErr <;>
          simp [hname, hf, hc, ho, osClose, osOpenFile, emit, logSetOutput, live_append, hlive,
            hp, liveStep]
  · unfold initFile
    by_cases hname : Format env.now ++ suffix = s.name
    · simpa [hname] using hsafe
    · cases hf : s.file with
      | none =>
        obtain ⟨h1, _⟩ := inv_none hinv hf
        rw [h1] at hlive
        have hl : List.foldl liveStep [] s.trace = [] := hlive
        cases ho : env.openErr <;>
          simp [hname, hf, ho, osOpenFile, emit, logSetOutput, atMostOneLive_append, hsafe, hl,
            atMostOneLive, liveStep]
      | some h =>
        obtain ⟨p, hp⟩ := fds_single (inv_some hinv hf).2.2
        rw [hp] at hlive
        have hl : List.foldl liveStep [] s.trace = [h] := hlive
        cases hc : env.closeErr <;> cases ho : env.openErr <;>
          simp [hname, hf, hc, ho, osClose, osOpenFile, emit, logSetOutput, atMostOneLive_append,
            hsafe, hl, atMostOneLive, liveStep]

theorem reach_goPanic (v : Payload) {s : Sys} (hr : Reach s) : Reach (goPanic v s).2 :=
  reach_emit (Effect.panic v) rfl hr

theorem reach_osExit (c : Nat) {s : Sys} (hr : Reach s) : Reach (osExit c s).2 :=
  reach_emit (Effect.exit c) rfl hr

theorem reach_initDir (env : Env) {s : Sys} (hr : Reach s) : Reach (initDir env s).2 :=
  reach_emit (Effect.mkdirAll s.dir perm env.mkdirErr) rfl hr

theorem reach_withLock (body : Sys → Outcome × Sys) (hbody : ∀ s, Reach s → Reach (body s).2)
    {s : Sys} (hr : Reach s) : Reach (withLock body s).2 := by
  have h1 := hbody (mutexLock s) (reach_mutexLock hr)
  unfold withLock
  rcases hres : body (mutexLock s) with ⟨o, s1⟩
  rw [hres] at h1
  cases o with
  | exited c => exact h1
  | returned => exact reach_mutexUnlock h1
  | panicked v => exact reach_mutexUnlock h1

theorem reach_guarded (env : Env) (call : Sys → Outcome × Sys)
    (hcall : ∀ s, Reach s → Reach (call s).2) {s : Sys} (hr : Reach s) :
    Reach (guarded env call s).2 := by
  have h1 := reach_initFile env hr
  unfold guarded
  rcases hres : initFile env s with ⟨r, s1⟩
  rw [hres] at h1
  cases r with
  | some e => exact reach_goPanic _ h1
  | none => exact hcall s1 h1

theorem reach_logOp (op : LogOp) (env : Env) (text : String) {s : Sys} (hr : Reach s) :
    Reach (op.call env text s).2 := by
  have hprint : ∀ s, Reach s → Reach (logPrint env text s).2 :=
    fun s hs => reach_logOutput env text hs
  have hfatal : ∀ s, Reach s → Reach (logFatal env text s).2 :=
    fun s hs => reach_osExit 1 (reach_logOutput env text hs)
  have hpanic : ∀ s, Reach s → Reach (logPanic env text s).2 :=
    fun s hs => reach_goPanic _ (reach_logOutput env text hs)
  cases op
  case print => exact reach_withLock _ (fun s hs => reach_guarded env _ hprint hs) hr
  case printf => exact reach_withLock _ (fun s hs => reach_guarded env _ hprint hs) hr
  case println => exact reach_withLock _ (fun s hs => reach_guarded env _ hprint hs) hr
  case fatal => exact reach_withLock _ (fun s hs => reach_guarded env _ hfatal hs) hr
  case fatalf => exact reach_withLock _ (fun s hs => reach_guarded env _ hfatal hs) hr
  case fatalln => exact reach_withLock _ (fun s hs => reach_guarded env _ hfatal hs) hr
  case panic => exact reach_withLock _ (fun s hs => reach_guarded env _ hpanic hs) hr
  case panicf => exact reach_withLock _ (fun s hs => reach_guarded env _ hpanic hs) hr
  case panicln => exact reach_withLock _ (fun s hs => reach_guarded env _ hpanic hs) hr

theorem reach_SetDir (env : Env) (d : String) {s : Sys} (hr : Reach s) :
    Reach (SetDir env d s).2 := by
  apply reach_withLock _ _ hr
  intro s0 hs0
  have h0 : Reach { s0 with dir := d, name := "" } :=
    reach_neutral hs0 rfl rfl rfl rfl ⟨[], by simp, by simp⟩
  have h1 := reach_initDir env h0
  simp only []
  rcases hres : initDir env { s0 with dir := d, name := "" } with ⟨r, s1⟩
  rw [hres] at h1
  cases r with
  | some e => exact reach_goPanic _ h1
  | none =>
    have h2 := reach_initFile env h1
    simp only []
    rcases hres2 : initFile env s1 with ⟨r2, s2⟩
    rw [hres2] at h2
    cases r2 with
    | some e => exact reach_goPanic _ h2
    | none => exact h2

theorem reach_SetPrefix (p : String) {s : Sys} (hr : Reach s) : Reach (SetPrefix p s).2 := by
  apply reach_withLock _ _ hr
  intro s0 hs0
  exact reach_neutral hs0 rfl rfl rfl rfl ⟨[Effect.setPfx p], rfl, by simp [Effect.neutral]⟩

theorem reach_init (env : Env) {s : Sys} (hr : Reach s) : Reach (init env s).2 := by
  have h1 := reach_initDir env hr
  unfold init
  rcases hres : initDir env s with ⟨r, s1⟩
  rw [hres] at h1
  cases r with
  | some e => exact reach_goPanic _ h1
  | none =>
    have h2 := reach_initFile env h1
    simp only []
    rcases hres2 : initFile env s1 with ⟨r2, s2⟩
    rw [hres2] at h2
    cases r2 with
    | some e => exact reach_goPanic _ h2
    | none => exact h2

theorem reach_exec (c : Call) {s : Sys} (hr : Reach s) : Reach (c.exec s).2 := by
  cases c with
  | init env => exact reach_init env hr
  | log op env text => exact reach_logOp op env text hr
  | setDir env d => exact reach_SetDir env d hr
  | setPrefix p => exact reach_SetPrefix p hr

theorem reach_run (calls : List Call) {s : Sys} (hr : Reach s) : Reach (run calls s) := by
  induction calls generalizing s with
  | nil => exact hr
  | cons c rest ih =>
    have h1 := reach_exec c hr
    unfold run
    rcases hres : c.exec s with ⟨o, s1⟩
    rw [hres] at h1
    cases o with
    | returned => exact ih h1
    | exited code => exact h1
    | panicked v =>
      cases c with
      | init env => exact h1
      | log op env text => exact ih h1
      | setDir env d => exact ih h1
      | setPrefix p => exact ih h1

/-- C6. Starting from the state at package load and running any finite sequence of calls
(`init`, the nine logging wrappers, `SetDir`, `SetPrefix`) with any clock readings and
any outcomes of mkdir, close, open and write: after every call at most one descriptor is
open, it is the one held in `file`, and replaying the whole trace effect by effect the
handles opened and not yet closed never number more than one, so every successful open
happened with no handle live. -/
theorem single_handle (calls : List Call) (k : Nat) :
    (run (calls.take k) boot).fds.length ≤ 1 ∧
    (∀ d ∈ (run (calls.take k) boot).fds, (run (calls.take k) boot).file = some d.1) ∧
    live (run (calls.take k) boot).trace = (run (calls.take k) boot).fds.map Prod.fst ∧
    atMostOneLive [] (run (calls.take k) boot).trace = true := by
  obtain ⟨hinv, hlive, hsafe⟩ := reach_run (calls.take k) reach_boot
  refine ⟨inv_fds_length hinv, ?_, hlive, hsafe⟩
  intro d hd
  cases hf : (run (calls.take k) boot).file with
  | none => rw [(inv_none hinv hf).1] at hd; simp at hd
  | some h =>
    have h3 := (inv_some hinv hf).2.2
    have : d.1 ∈ (run (calls.take k) boot).fds.map Prod.fst := List.mem_map_of_mem _ hd
    rw [h3] at this
    simp at this
    rw [this]

/-! ## Names and paths -/

theorem digit_inj (a b : Nat) (h : digit a = digit b) : a % 10 = b % 10 := by
  have key : ∀ x y : Fin 10, Char.ofNat (48 + x.val) = Char.ofNat (48 + y.val) → x = y := by
    decide
  have := key ⟨a % 10, Nat.mod_lt _ (by decide)⟩ ⟨b % 10, Nat.mod_lt _ (by decide)⟩ h
  exact congrArg Fin.val this

theorem digit_ne_slash (a : Nat) : digit a ≠ '/' := by
  have key : ∀ x : Fin 10, Char.ofNat (48 + x.val) ≠ '/' := by decide
  exact key ⟨a % 10, Nat.mod_lt _ (by decide)⟩

theorem digit_ne_dot (a : Nat) : digit a ≠ '.' := by
  have key : ∀ x : Fin 10, Char.ofNat (48 + x.val) ≠ '.' := by decide
  exact key ⟨a % 10, Nat.mod_lt _ (by decide)⟩

theorem Format_sameDay {a b : Instant} (h : a.sameDay b) : Format a = Format b := by
  obtain ⟨h1, h2, h3⟩ := h
  simp [Format, h1, h2, h3]

/-- Distinct civil days have distinct formatted dates. -/
theorem Format_inj {a b : Instant} (ha : a.civil) (hb : b.civil) (h : Format a = Format b) :
    a.sameDay b := by
  obtain ⟨ha1, _, ha2, _, ha3⟩ := ha
  obtain ⟨hb1, _, hb2, _, hb3⟩ := hb
  have h := congrArg String.data h
  simp only [Format, yearDigits, ha1, hb1, if_true, pad4, pad2,
    List.cons_append, List.nil_append, List.cons.injEq, and_true, true_and] at h
  obtain ⟨y3, y2, y1, y0, m1, m0, d1, d0⟩ := h
  have y3 := digit_inj _ _ y3
  have y2 := digit_inj _ _ y2
  have y1 := digit_inj _ _ y1
  have y0 := digit_inj _ _ y0
  have m1 := digit_inj _ _ m1
  have m0 := digit_inj _ _ m0
  have d1 := digit_inj _ _ d1
  have d0 := digit_inj _ _ d0
  refine ⟨?_, ?_, ?_⟩ <;> omega

theorem newName_simple (t : Instant) (ht : t.civil) : simpleName (Format t ++ suffix).data := by
  obtain ⟨h1, _⟩ := ht
  have e : (Format t ++ suffix).data
      = pad4 t.year ++ '-' :: pad2 t.month ++ '-' :: pad2 t.day ++ ['.', 'l', 'o', 'g'] := by
    simp [Format, yearDigits, h1, suffix, String.data_append]
  rw [e]
  refine ⟨by simp [pad4], by simp [pad4], by simp [pad4], ?_⟩
  simp [pad4, pad2, digit_ne_slash, Ne.symm (digit_ne_slash _)]

theorem splitSlash_ne_nil (p : List Char) : splitSlash p ≠ [] := by
  cases p with
  | nil => simp [splitSlash]
  | cons c cs =>
    simp only [splitSlash]
    cases h : splitSlash cs with
    | nil => simp
    | cons w ws => by_cases hc : c = '/' <;> simp [hc]

theorem splitSlash_simple (n : List Char) (h : '/' ∉ n) : splitSlash n = [n] := by
  induction n with
  | nil => rfl
  | cons c cs ih =>
    have hc : c ≠ '/' := fun e => h (by simp [e])
    have hcs : '/' ∉ cs := fun e => h (by simp [e])
    simp [splitSlash, ih hcs, hc]

theorem splitSlash_append (a n : List Char) (h : '/' ∉ n) :
    splitSlash (a ++ '/' :: n) = splitSlash a ++ [n] := by
  induction a with
  | nil => simp [splitSlash, splitSlash_simple n h]
  | cons c cs ih =>
    cases hs : splitSlash cs with
    | nil => exact absurd hs (splitSlash_ne_nil cs)
    | cons w ws =>
      rw [hs] at ih
      by_cases hc : c = '/' <;> simp [splitSlash, ih, hs, hc]

theorem cleanStep_simple (r : Bool) (acc : List (List Char)) (n : List Char)
    (h : simpleName n) : cleanStep r acc n = n :: acc := by
  obtain ⟨h1, h2, h3, _⟩ := h
  simp [cleanStep, h1, h2, h3]

theorem joinSlash_snoc (ys : List (List Char)) :
    ∃ pre, ∀ n, joinSlash (ys ++ [n]) = pre ++ n := by
  induction ys with
  | nil => exact ⟨[], fun n => by simp [joinSlash]⟩
  | cons y rest ih =>
    obtain ⟨pre, hpre⟩ := ih
    refine ⟨y ++ '/' :: pre, fun n => ?_⟩
    cases rest with
    | nil =>
      have := hpre n
      simp [joinSlash] at this ⊢
      have h0 := hpre []
      simp [joinSlash] at h0
      simp [h0]
    | cons z zs =>
      have := hpre n
      simp only [List.cons_append] at this ⊢
      simp [joinSlash, this]

theorem cleanChars_simple_last (p : List Char) :
    ∃ pre, ∀ n, simpleName n → (p ++ '/' :: n).head? = (p ++ ['/']).head? →
      cleanChars (p ++ '/' :: n) = pre ++ n := by
  obtain ⟨pre, hpre⟩ := joinSlash_snoc
    ((splitSlash p).foldl (cleanStep (decide ((p ++ ['/']).head? = some '/'))) []).reverse
  refine ⟨if (p ++ ['/']).head? = some '/' then '/' :: pre else pre, fun n hn hhead => ?_⟩
  have hns : '/' ∉ n := hn.2.2.2
  have hne : n ≠ [] := hn.1
  simp only [cleanChars, hhead, splitSlash_append p n hns, List.foldl_append, List.foldl_cons,
    List.foldl_nil, cleanStep_simple _ _ n hn, List.reverse_cons, hpre]
  by_cases hr : (p ++ ['/']).head? = some '/'
  · simp [hr]
  · have hd : decide ((p ++ ['/']).head? = some '/') = false := decide_eq_false hr
    rw [if_neg hr, hd]
    simp [hne]

theorem cleanChars_simple (n : List Char) (hn : simpleName n) : cleanChars n = n := by
  have hns : '/' ∉ n := hn.2.2.2
  have hne : n ≠ [] := hn.1
  have hhead : ¬ (n.head? = some '/') := by
    intro e
    cases n with
    | nil => simp at e
    | cons c cs => simp at e; exact hns (by simp [e])
  simp [cleanChars, hhead, splitSlash_simple n hns, cleanStep_simple _ _ n hn, joinSlash, hne]

/-- Joining a directory with a simple file name puts the name, unchanged, at the end of a
text that depends on the directory only. -/
theorem Join_simple (d : String) :
    ∃ pre, ∀ n : String, simpleName n.data → (Join d n).data = pre ++ n.data := by
  by_cases hd : d.data = []
  · refine ⟨[], fun n hn => ?_⟩
    simp [Join, hd, hn.1, cleanChars_simple n.data hn]
  · obtain ⟨pre, hpre⟩ := cleanChars_simple_last d.data
    refine ⟨pre, fun n hn => ?_⟩
    have hhead : (d.data ++ '/' :: n.data).head? = (d.data ++ ['/']).head? := by
      cases hdd : d.data with
      | nil => exact absurd hdd hd
      | cons c cs => simp
    simp [Join, hd, hn.1, hpre n.data hn hhead]

theorem Join_inj (d n1 n2 : String) (h1 : simpleName n1.data) (h2 : simpleName n2.data)
    (h : Join d n1 = Join d n2) : n1 = n2 := by
  obtain ⟨pre, hpre⟩ := Join_simple d
  have e := congrArg String.data h
  rw [hpre n1 h1, hpre n2 h2] at e
  exact String.ext (List.append_cancel_left e)

/-- Distinct civil days give distinct file paths in one directory. -/
theorem path_inj (d : String) {a b : Instant} (ha : a.civil) (hb : b.civil)
    (h : Join d (Format a ++ suffix) = Join d (Format b ++ suffix)) : a.sameDay b := by
  have e := Join_inj d _ _ (newName_simple a ha) (newName_simple b hb) h
  have e2 := congrArg String.data e
  simp only [String.data_append] at e2
  exact Format_inj ha hb (String.ext (List.append_cancel_right e2))

/-! ## File contents -/

theorem any_appendFile (p q data : String) (fs : List (String × String)) :
    (appendFile p data fs).any (fun f => f.1 == q) = fs.any (fun f => f.1 == q) := by
  induction fs with
  | nil => rfl
  | cons f rest ih =>
    by_cases hf : f.1 = p
    · simp [appendFile, hf]
    · simp [appendFile, hf, ih]

theorem createFile_present (p : String) (fs : List (String × String))
    (h : fs.any (fun f => f.1 == p) = true) : createFile p fs = fs := by
  simp only [createFile, h, if_true]

theorem any_createFile (p : String) (fs : List (String × String)) :
    (createFile p fs).any (fun f => f.1 == p) = true := by
  by_cases h : fs.any (fun f => f.1 == p) = true
  · rw [createFile_present p fs h]; exact h
  · simp [createFile, h]

theorem appendFile_appendFile (p a b : String) (fs : List (String × String)) :
    appendFile p b (appendFile p a fs) = appendFile p (a ++ b) fs := by
  induction fs with
  | nil => rfl
  | cons f rest ih =>
    by_cases hf : f.1 = p
    · simp [appendFile, hf, String.append_assoc]
    · simp [appendFile, hf, ih]

theorem appendFile_empty (p : String) (fs : List (String × String)) :
    appendFile p "" fs = fs := by
  induction fs with
  | nil => rfl
  | cons f rest ih =>
    by_cases hf : f.1 = p
    · simp [appendFile, hf]
      rw [← hf]
    · simp [appendFile, hf, ih]

theorem ready_some {s : Sys} (hr : Ready s) :
    ∃ h, s.file = some h ∧ h < s.nextHandle ∧ s.out = [Writer.stderr, Writer.file h] ∧
      s.fds = [(h, Join s.dir s.name)] ∧
      s.fs.any (fun f => f.1 == Join s.dir s.name) = true := by
  unfold Ready Sys.ready at hr
  cases hf : s.file with
  | none => simp [hf] at hr
  | some h =>
    simp only [hf, Bool.and_eq_true, beq_iff_eq] at hr
    obtain ⟨hok, hfds, hany⟩ := hr
    obtain ⟨h1, h2, _⟩ := inv_some (s := s) hok hf
    exact ⟨h, rfl, h1, h2, hfds, hany⟩

/-- One print-family call with every system call succeeding, from a state with a current
file: it returns, the state again has a current file, for the day of the call, and the
record is appended to that day's file, created if it did not exist. -/
theorem print_step (op : LogOp) (env : Env) (text : String) (s : Sys)
    (hp : op.isPrint = true) (hok : env.allOk) (hr : Ready s) :
    (op.call env text s).1 = Outcome.returned ∧
    Ready (op.call env text s).2 ∧
    (op.call env text s).2.dir = s.dir ∧
    (op.call env text s).2.pfx = s.pfx ∧
    (op.call env text s).2.name = Format env.now ++ suffix ∧
    (op.call env text s).2.fs
      = appendFile (Join s.dir (Format env.now ++ suffix)) (record s.pfx env.stamp text)
          (createFile (Join s.dir (Format env.now ++ suffix)) s.fs) := by
  obtain ⟨h, hf, hlt, hout, hfds, hany⟩ := ready_some hr
  obtain ⟨_, hc, ho, he, hw⟩ := hok
  have hcall : op.call env text s = withLock (guarded env (logPrint env text)) s := by
    cases op <;> simp [LogOp.isPrint] at hp <;> rfl
  rw [hcall]
  by_cases hname : Format env.now ++ suffix = s.name
  · have hany2 : s.fs.any (fun f => f.1 == Join s.dir (Format env.now ++ suffix)) = true := by
      rw [hname]; exact hany
    rw [createFile_present _ _ hany2]
    refine ⟨?_, ?_, ?_, ?_, ?_, ?_⟩ <;>
      simp [withLock, guarded, initFile, hname, mutexLock, emit, logPrint, logOutput, hout,
        writeAll, writeTo, he, hw, hfds, fdPath, mutexUnlock, Ready, Sys.ready, Sys.ok, hf, hlt,
        any_appendFile, hany]
  · refine ⟨?_, ?_, ?_, ?_, ?_, ?_⟩ <;>
      simp [withLock, guarded, initFile, hname, mutexLock, emit, logPrint, logOutput,
        writeAll, writeTo, he, hw, hfds, fdPath, mutexUnlock, Ready, Sys.ready, Sys.ok, hf,
        osClose, hc, osOpenFile, ho, logSetOutput, writer, any_appendFile, any_createFile]

/-- The state after a successful start is a state with a current file: the day's file,
empty, in the default directory. -/
theorem init_ready (env : Env) (hok : env.allOk) :
    (init env boot).1 = Outcome.returned ∧ Ready (init env boot).2 ∧
    (init env boot).2.dir = "log" ∧ (init env boot).2.pfx = "" ∧
    (init env boot).2.fs = [(Join "log" (Format env.now ++ suffix), "")] := by
  obtain ⟨hm, _, ho, _, _⟩ := hok
  have hn : ¬ (Format env.now ++ suffix = "") := newName_ne_empty env.now
  refine ⟨?_, ?_, ?_, ?_, ?_⟩ <;>
    simp [init, initDir, osMkdirAll, hm, boot, emit, initFile, hn, osOpenFile, ho, logSetOutput,
      writer, createFile, Ready, Sys.ready, Sys.ok]

theorem run_log_returned (c : LogOp × Env × String) (rest : List (LogOp × Env × String))
    (s : Sys) (h : (c.1.call c.2.1 c.2.2 s).1 = Outcome.returned) :
    run (toCalls (c :: rest)) s = run (toCalls rest) (c.1.call c.2.1 c.2.2 s).2 := by
  rcases hres : c.1.call c.2.1 c.2.2 s with ⟨o, s1⟩
  rw [hres] at h
  simp only [] at h
  subst h
  simp [toCalls, run, Call.exec, hres]

/-- Print-family calls on the day of the current file: all records are appended to the
current file, in call order. -/
theorem prints_current_day (day : String) (calls : List (LogOp × Env × String)) (s : Sys)
    (hr : Ready s) (hname : s.name = day ++ suffix)
    (hp : ∀ x ∈ calls, x.1.isPrint = true) (hok : ∀ x ∈ calls, x.2.1.allOk)
    (hday : ∀ x ∈ calls, Format x.2.1.now = day) :
    Ready (run (toCalls calls) s) ∧
    (run (toCalls calls) s).dir = s.dir ∧
    (run (toCalls calls) s).pfx = s.pfx ∧
    (run (toCalls calls) s).name = day ++ suffix ∧
    (run (toCalls calls) s).fs
      = appendFile (Join s.dir (day ++ suffix)) (records s.pfx calls) s.fs := by
  induction calls generalizing s with
  | nil => exact ⟨hr, rfl, rfl, hname, by simp [toCalls, run, records, appendFile_empty]⟩
  | cons c rest ih =>
    obtain ⟨h1, h2, h3, h4, h5, h6⟩ := print_step c.1 c.2.1 c.2.2 s (hp c (by simp))
      (hok c (by simp)) hr
    have hd : Format c.2.1.now = day := hday c (by simp)
    rw [hd] at h5 h6
    obtain ⟨_, _, _, _, _, hany⟩ := ready_some hr
    rw [hname] at hany
    rw [createFile_present _ _ hany] at h6
    obtain ⟨i1, i2, i3, i4, i5⟩ := ih (c.1.call c.2.1 c.2.2 s).2 h2 h5
      (fun x hx => hp x (by simp [hx])) (fun x hx => hok x (by simp [hx]))
      (fun x hx => hday x (by simp [hx]))
    rw [run_log_returned c rest s h1]
    refine ⟨i1, i2.trans h3, i3.trans h4, i4, ?_⟩
    rw [i5, h3, h4, h6, appendFile_appendFile]
    rfl

/-- C7. From a state with a current file (such as the state after start-up), print-family
calls made one after another on one calendar day, every system call succeeding, append
all their records, in call order, to the single file `path.Join(dir, day + suffix)`, which
is created if absent; no other file is created or changed. A later print-family call on a
different day goes to a different path, is appended to that day's file only, and the
earlier file keeps its contents. -/
theorem same_day_contents (s : Sys) (day : Instant) (c : LogOp × Env × String)
    (rest : List (LogOp × Env × String)) (later : LogOp × Env × String)
    (hr : Ready s)
    (hp : ∀ x ∈ c :: rest, x.1.isPrint = true) (hok : ∀ x ∈ c :: rest, x.2.1.allOk)
    (hday : ∀ x ∈ c :: rest, x.2.1.now.sameDay day)
    (hlp : later.1.isPrint = true) (hlok : later.2.1.allOk)
    (hcivil : day.civil) (hlcivil : later.2.1.now.civil)
    (hdiff : ¬ later.2.1.now.sameDay day) :
    (run (toCalls (c :: rest)) s).fs
      = appendFile (Join s.dir (Format day ++ suffix)) (records s.pfx (c :: rest))
          (createFile (Join s.dir (Format day ++ suffix)) s.fs) ∧
    (∀ content, s.fs = [(Join s.dir (Format day ++ suffix), content)] →
      (run (toCalls (c :: rest)) s).fs
        = [(Join s.dir (Format day ++ suffix), content ++ records s.pfx (c :: rest))]) ∧
    Join s.dir (Format later.2.1.now ++ suffix) ≠ Join s.dir (Format day ++ suffix) ∧
    (run (toCalls [later]) (run (toCalls (c :: rest)) s)).fs
      = appendFile (Join s.dir (Format later.2.1.now ++ suffix))
          (record s.pfx later.2.1.stamp later.2.2)
          (createFile (Join s.dir (Format later.2.1.now ++ suffix))
            (run (toCalls (c :: rest)) s).fs) ∧
    (∀ content, s.fs = [(Join s.dir (Format day ++ suffix), content)] →
      (run (toCalls [later]) (run (toCalls (c :: rest)) s)).fs
        = [(Join s.dir (Format day ++ suffix), content ++ records s.pfx (c :: rest)),
           (Join s.dir (Format later.2.1.now ++ suffix),
             record s.pfx later.2.1.stamp later.2.2)]) := by
  obtain ⟨h1, h2, h3, h4, h5, h6⟩ := print_step c.1 c.2.1 c.2.2 s (hp c (by simp))
    (hok c (by simp)) hr
  have hd : Format c.2.1.now = Format day := Format_sameDay (hday c (by simp))
  rw [hd] at h5 h6
  obtain ⟨i1, i2, i3, i4, i5⟩ := prints_current_day (Format day) rest
    (c.1.call c.2.1 c.2.2 s).2 h2 h5
    (fun x hx => hp x (by simp [hx])) (fun x hx => hok x (by simp [hx]))
    (fun x hx => Format_sameDay (hday x (by simp [hx])))
  rw [← run_log_returned c rest s h1] at i1 i2 i3 i4 i5
  have hfs : (run (toCalls (c :: rest)) s).fs
      = appendFile (Join s.dir (Format day ++ suffix)) (records s.pfx (c :: rest))
          (createFile (Join s.dir (Format day ++ suffix)) s.fs) := by
    rw [i5, h3, h4, h6, appendFile_appendFile]
    rfl
  have hne : Join s.dir (Format later.2.1.now ++ suffix) ≠ Join s.dir (Format day ++ suffix) :=
    fun e => hdiff (path_inj s.dir hlcivil hcivil e)
  obtain ⟨j1, _, j3, j4, _, j6⟩ := print_step later.1 later.2.1 later.2.2
    (run (toCalls (c :: rest)) s) hlp hlok i1
  have hlater : (run (toCalls [later]) (run (toCalls (c :: rest)) s)).fs
      = appendFile (Join s.dir (Format later.2.1.now ++ suffix))
          (record s.pfx later.2.1.stamp later.2.2)
          (createFile (Join s.dir (Format later.2.1.now ++ suffix))
            (run (toCalls (c :: rest)) s).fs) := by
    rw [run_log_returned later [] _ j1]
    change (later.1.call later.2.1 later.2.2 (run (toCalls (c :: rest)) s)).2.fs = _
    rw [j6, i2.trans h3, i3.trans h4]
  have hone : ∀ content, s.fs = [(Join s.dir (Format day ++ suffix), content)] →
      (run (toCalls (c :: rest)) s).fs
        = [(Join s.dir (Format day ++ suffix), content ++ records s.pfx (c :: rest))] := by
    intro content hc
    rw [hfs, hc]
    simp [createFile, appendFile]
  refine ⟨hfs, hone, hne, hlater, ?_⟩
  intro content hc
  rw [hlater, hone content hc]
  simp [createFile, appendFile, Ne.symm hne, hne]

theorem same_day_contents_witness :
    (run (toCalls [(LogOp.print, okEnv jan2 jan2, "c")])
        (run (toCalls [(LogOp.print, okEnv jan1 jan1, "a"), (LogOp.print, okEnv jan1 jan1, "b")])
          started)).fs
      = [("log/2024-01-01.log", "2024/01/01 09:05:07 a\n2024/01/01 09:05:07 b\n"),
         ("log/2024-01-02.log", "2024/01/02 00:00:01 c\n")] :=
  ((same_day_contents started jan1 (LogOp.print, okEnv jan1 jan1, "a")
      [(LogOp.print, okEnv jan1 jan1, "b")] (LogOp.print, okEnv jan2 jan2, "c")
      (by decide) (by decide) (by decide) (by decide) (by decide) (by decide) (by decide)
      (by decide) (by decide)).2.2.2.2 "" (by decide)).trans (by decide)

end DailyLog
